import Mathlib

set_option maxRecDepth 100000

set_option maxHeartbeats 1000000

/-!
# Verification of the calendar-shift tool

A shallow embedding, in Lean 4, of the `calendar-shift` repository
(`calendar_shift.py`, `webhook_server.py`): the event-classification chain,
the event shifter with its timezone-representation rule, the offset
calculator, the orchestrator main loop, and the webhook handler.

Python `datetime` semantics (ISO-8601 parsing via `datetime.fromisoformat`
restricted to the RFC-3339-style strings produced by the Google Calendar
API, `strftime('%Y-%m-%dT%H:%M:%S')`, `datetime.isoformat`, and
`timedelta` addition over the proleptic Gregorian calendar with the year
range 1..9999) are modelled from first principles below: dates are
converted through a March-based day count, exactly equivalent to CPython's
ordinal arithmetic on the shared domain.
-/


/-- Python's leap-year rule (`calendar.isleap` / `datetime` internals). -/
def isLeapYear (y : Nat) : Bool :=
  y % 4 = 0 && (y % 100 != 0 || y % 400 = 0)

/-- Days in a calendar month, as validated by CPython `datetime`. -/
def daysInMonth (y m : Nat) : Nat :=
  if m = 2 then (if isLeapYear y then 29 else 28)
  else if m = 4 ∨ m = 6 ∨ m = 9 ∨ m = 11 then 30
  else 31

/-- Length of the March-based year starting 1 March of calendar year `y`. -/
def daysInYearM (y : Nat) : Nat := if isLeapYear (y + 1) then 366 else 365

/-- Days from 0000-03-01 to 1 March of calendar year `y`. -/
def yearStartDays (y : Nat) : Nat := 365 * y + y / 4 - y / 100 + y / 400

/-- Cumulative days before March-based month `mp` (0 = March, …, 11 = February). -/
def monthStartM : Nat → Nat
  | 0 => 0 | 1 => 31 | 2 => 61 | 3 => 92 | 4 => 122 | 5 => 153
  | 6 => 184 | 7 => 214 | 8 => 245 | 9 => 275 | 10 => 306 | _ => 337

/-- Length of March-based month `mp` (February, `mp = 11`, is the remainder). -/
def monthLenM : Nat → Nat
  | 0 => 31 | 1 => 30 | 2 => 31 | 3 => 30 | 4 => 31 | 5 => 31
  | 6 => 30 | 7 => 31 | 8 => 30 | 9 => 31 | 10 => 31 | _ => 29

/-- Greedy year search: returns (March-based year, day of that year). -/
def civilYearAux : Nat → Nat → Nat → Nat × Nat
  | 0, y, z => (y, z)
  | fuel + 1, y, z =>
    if z < daysInYearM y then (y, z)
    else civilYearAux fuel (y + 1) (z - daysInYearM y)

/-- Greedy month search within a March-based year. -/
def monthOfDoyAux : Nat → Nat → Nat → Nat × Nat
  | 0, mp, r => (mp, r)
  | fuel + 1, mp, r =>
    if r < monthLenM mp then (mp, r)
    else monthOfDoyAux fuel (mp + 1) (r - monthLenM mp)

/-- Gregorian triple (y, m, d) to days since 0000-03-01 (valid for `y ≥ 1`). -/
def daysFromCivil (y m d : Nat) : Nat :=
  yearStartDays (y - (if m ≤ 2 then 1 else 0)) +
    monthStartM (if 2 < m then m - 3 else m + 9) + (d - 1)

/-- Days since 0000-03-01 back to a Gregorian triple (y, m, d). -/
def civilFromDays (z : Nat) : Nat × Nat × Nat :=
  let p := civilYearAux (z / 365 + 1) 0 z
  let q := monthOfDoyAux 11 0 p.2
  let m := if q.1 < 10 then q.1 + 3 else q.1 - 9
  (if m ≤ 2 then p.1 + 1 else p.1, m, q.2 + 1)

/-! ## Characters, digits, and fixed-width decimal fields -/

/-- The ASCII digit character for `n % 10`-style values. -/
def dchar (n : Nat) : Char := Char.ofNat (48 + n)

/-- Numeric value of an ASCII digit character. -/
def dval (c : Char) : Nat := c.toNat - 48

def isDigitChar (c : Char) : Bool := 48 ≤ c.toNat && c.toNat ≤ 57

def digitOf (c : Char) : Option Nat := if isDigitChar c then some (dval c) else none

/-- Two-digit zero-padded decimal field. -/
def pad2 (n : Nat) : List Char := [dchar (n / 10 % 10), dchar (n % 10)]

/-- Four-digit zero-padded decimal field. -/
def pad4 (n : Nat) : List Char := pad2 (n / 100) ++ pad2 (n % 100)

/-- Six-digit zero-padded decimal field. -/
def pad6 (n : Nat) : List Char := pad2 (n / 10000) ++ pad2 (n / 100 % 100) ++ pad2 (n % 100)

/-- Parse two ASCII digits as a two-digit decimal number. -/
def parse2 (a b : Char) : Option Nat := do
  let x ← digitOf a
  let y ← digitOf b
  pure (10 * x + y)

/-- Parse four ASCII digits as a four-digit decimal number. -/
def parse4 (a b c d : Char) : Option Nat := do
  let x ← parse2 a b
  let y ← parse2 c d
  pure (100 * x + y)

/-- Leading run of ASCII digits and the remainder of the list. -/
def takeDigits : List Char → List Char × List Char
  | [] => ([], [])
  | c :: cs =>
    if isDigitChar c then ((c :: (takeDigits cs).1), (takeDigits cs).2)
    else ([], c :: cs)

def digitsValAux : List Char → Nat → Nat
  | [], acc => acc
  | c :: cs, acc => digitsValAux cs (acc * 10 + dval c)

/-- Decimal value of a digit run. -/
def digitsVal (l : List Char) : Nat := digitsValAux l 0

def headNotDigit : List Char → Bool
  | [] => true
  | c :: _ => !isDigitChar c

/-- UTC-offset suffix accepted by `datetime.fromisoformat`: `±HH:MM`,
bounded below 24 hours.  Result is the offset in minutes. -/
def parseTz : List Char → Option (Option Int)
  | [] => some none
  | ['+', h1, h2, ':', m1, m2] => do
      let h ← parse2 h1 h2
      let mi ← parse2 m1 m2
      if h ≤ 23 ∧ mi ≤ 59 then some (some ((h * 60 + mi : Nat) : Int)) else none
  | ['-', h1, h2, ':', m1, m2] => do
      let h ← parse2 h1 h2
      let mi ← parse2 m1 m2
      if h ≤ 23 ∧ mi ≤ 59 then some (some (-((h * 60 + mi : Nat) : Int))) else none
  | _ => none

/-- `datetime.isoformat`'s rendering of a UTC offset (minutes) as `±HH:MM`. -/
def fmtTzL (off : Int) : List Char :=
  if off < 0 then '-' :: (pad2 ((-off).toNat / 60) ++ ':' :: pad2 ((-off).toNat % 60))
  else '+' :: (pad2 (off.toNat / 60) ++ ':' :: pad2 (off.toNat % 60))

/-- Fractional-second + timezone tail of an ISO string, as accepted by
`datetime.fromisoformat`: optional `.d{1,6}` then an optional offset.
Returns (microseconds, utc offset in minutes). -/
def parseFracTz : List Char → Option (Nat × Option Int)
  | [] => some (0, none)
  | '.' :: rest =>
      if 1 ≤ (takeDigits rest).1.length ∧ (takeDigits rest).1.length ≤ 6 then do
        let tz ← parseTz (takeDigits rest).2
        some (digitsVal (takeDigits rest).1 * 10 ^ (6 - (takeDigits rest).1.length), tz)
      else none
  | l => do
      let tz ← parseTz l
      some (0, tz)

/-! ## Python `datetime` values -/

/-- A Python `datetime` value: naive wall-clock fields plus an optional
UTC offset in minutes (`tzinfo`). -/
structure PyDateTime where
  year : Nat
  month : Nat
  day : Nat
  hour : Nat
  minute : Nat
  second : Nat
  microsecond : Nat
  tz : Option Int
deriving Repr, DecidableEq

/-- Field ranges enforced by CPython's `datetime` constructor. -/
def validDT (v : PyDateTime) : Prop :=
  1 ≤ v.year ∧ v.year ≤ 9999 ∧ 1 ≤ v.month ∧ v.month ≤ 12 ∧ 1 ≤ v.day ∧
  v.day ≤ daysInMonth v.year v.month ∧ v.hour ≤ 23 ∧ v.minute ≤ 59 ∧
  v.second ≤ 59 ∧ v.microsecond ≤ 999999 ∧
  -1439 ≤ v.tz.getD 0 ∧ v.tz.getD 0 ≤ 1439

/-- `datetime.fromisoformat`, on the RFC-3339-style grammar
`YYYY-MM-DDTHH:MM:SS[.f{1,6}][±HH:MM]` (the subset exchanged with the
Google Calendar API; the caller replaces a trailing `Z` beforehand). -/
def fromisoformatL : List Char → Option PyDateTime
  | y1 :: y2 :: y3 :: y4 :: '-' :: o1 :: o2 :: '-' :: d1 :: d2 :: 'T' ::
      h1 :: h2 :: ':' :: n1 :: n2 :: ':' :: s1 :: s2 :: rest => do
    let y ← parse4 y1 y2 y3 y4
    let mo ← parse2 o1 o2
    let d ← parse2 d1 d2
    let h ← parse2 h1 h2
    let mi ← parse2 n1 n2
    let s ← parse2 s1 s2
    let p ← parseFracTz rest
    if 1 ≤ y ∧ 1 ≤ mo ∧ mo ≤ 12 ∧ 1 ≤ d ∧ d ≤ daysInMonth y mo ∧
        h ≤ 23 ∧ mi ≤ 59 ∧ s ≤ 59 then
      some ⟨y, mo, d, h, mi, s, p.1, p.2⟩
    else none
  | _ => none

/-- `strftime('%Y-%m-%dT%H:%M:%S')` on the naive fields. -/
def fmtBasicL (v : PyDateTime) : List Char :=
  pad4 v.year ++ '-' :: (pad2 v.month ++ '-' :: (pad2 v.day ++ 'T' ::
    (pad2 v.hour ++ ':' :: (pad2 v.minute ++ ':' :: pad2 v.second))))

/-- `datetime.isoformat()`: seconds always present, microseconds only when
nonzero (six digits), offset as `±HH:MM` when aware. -/
def isoformatL (v : PyDateTime) : List Char :=
  fmtBasicL v ++ ((if v.microsecond = 0 then [] else '.' :: pad6 v.microsecond) ++
    (match v.tz with | none => [] | some off => fmtTzL off))

/-- `strftime('%Y-%m-%dT%H:%M:%S') + 'Z'` — the tool's rendering of
originally-`Z`-suffixed timestamps. -/
def fmtZL (v : PyDateTime) : List Char := fmtBasicL v ++ ['Z']

/-- Python `str.replace('Z', '+00:00')`. -/
def replaceZL : List Char → List Char
  | [] => []
  | c :: cs => (if c = 'Z' then ['+', '0', '0', ':', '0', '0'] else [c]) ++ replaceZL cs

/-- Python `str.endswith('Z')`. -/
def endsWithZL (l : List Char) : Bool := l.getLast? == some 'Z'

/-- No `'Z'` occurs in the list. -/
def noZ (l : List Char) : Bool := l.all (fun c => !(c == 'Z'))

/-! ## `timedelta` addition -/

/-- Whole minutes from the epoch to the naive wall-clock position of `v`
(seconds/microseconds excluded: the tool only ever adds whole minutes). -/
def pyBaseMinutes (v : PyDateTime) : Int :=
  (daysFromCivil v.year v.month v.day : Int) * 1440 +
    (v.hour : Int) * 60 + (v.minute : Int)

/-- `v + timedelta(minutes=delta)`: naive-field arithmetic, `tzinfo`,
seconds and microseconds untouched; `None` models the `OverflowError`
CPython raises outside years 1..9999. -/
def addMinutesDT (delta : Int) (v : PyDateTime) : Option PyDateTime :=
  if pyBaseMinutes v + delta < 0 then none
  else if (civilFromDays ((pyBaseMinutes v + delta).toNat / 1440)).1 < 1 ∨
      9999 < (civilFromDays ((pyBaseMinutes v + delta).toNat / 1440)).1 then none
  else some ⟨(civilFromDays ((pyBaseMinutes v + delta).toNat / 1440)).1,
    (civilFromDays ((pyBaseMinutes v + delta).toNat / 1440)).2.1,
    (civilFromDays ((pyBaseMinutes v + delta).toNat / 1440)).2.2,
    (pyBaseMinutes v + delta).toNat % 1440 / 60,
    (pyBaseMinutes v + delta).toNat % 1440 % 60,
    v.second, v.microsecond, v.tz⟩

/-! ## The event shifter (`shift_event`, string level) -/

/-- The start/end `dateTime` rewrite performed by `shift_event`
(`calendar_shift.py` lines 332-344): parse both fields with the `Z`
replacement applied, add the offset to both, and re-serialize — with the
trailing-`Z` style chosen by the *start* field's original representation. -/
def shift_event_strings (offset : Int) (startS endS : String) :
    Option (String × String) := do
  let sdt ← fromisoformatL (replaceZL startS.data)
  let edt ← fromisoformatL (replaceZL endS.data)
  let ns ← addMinutesDT offset sdt
  let ne ← addMinutesDT offset edt
  if endsWithZL startS.data then
    some (String.mk (fmtZL ns), String.mk (fmtZL ne))
  else
    some (String.mk (isoformatL ns), String.mk (isoformatL ne))

/-! ## Calendar events and classification (`main` loop, `is_solo_event`) -/

structure Attendee where
  email : Option String
  self : Option Bool
deriving Repr, DecidableEq

/-- An event's `start`/`end` object: a date-only key, a dateTime key,
either, or neither (absent keys modelled as `none`). -/
structure EventTime where
  date : Option String
  dateTime : Option String
deriving Repr, DecidableEq

structure CalEvent where
  id : String
  summary : Option String
  start : EventTime
  end_ : EventTime
  attendees : List Attendee
deriving Repr, DecidableEq

/-- `SLEEP_EVENT_NAMES` from `calendar_shift.py`. -/
def SLEEP_EVENT_NAMES : List (List Char) :=
  ["sleep".data, "wake".data, "wakeup".data, "wake up".data, "bedtime".data]

/-- `str.lower`, on the ASCII titles this tool compares. -/
def lowerL (l : List Char) : List Char := l.map Char.toLower

def matchesAt : List Char → List Char → Bool
  | [], _ => true
  | _ :: _, [] => false
  | p :: ps, c :: cs => p == c && matchesAt ps cs

/-- Python's substring test `pat in s`. -/
def containsSub (pat : List Char) : List Char → Bool
  | [] => matchesAt pat []
  | c :: cs => matchesAt pat (c :: cs) || containsSub pat cs

/-- `any(name in summary.lower() for name in SLEEP_EVENT_NAMES)`. -/
def sleepTitle (summary : String) : Bool :=
  SLEEP_EVENT_NAMES.any (fun name => containsSub name (lowerL summary.data))

/-- The attendees other than the authenticated user
(`calendar_shift.py` line 321). -/
def other_attendees (e : CalEvent) (myEmail : String) : List Attendee :=
  e.attendees.filter (fun a => !(a.email == some myEmail) && !(a.self.getD false))

/-- `is_solo_event` (lines 314-322). -/
def is_solo_event (e : CalEvent) (myEmail : String) : Bool :=
  if e.attendees.isEmpty then true
  else (other_attendees e myEmail).length == 0

inductive Classification
  | SLEEP_MARKER | ALL_DAY | HAS_ATTENDEES | SHIFTABLE
deriving Repr, DecidableEq

/-- The main loop's per-event decision chain (lines 410-426). -/
def classify (myEmail : String) (e : CalEvent) : Classification :=
  if sleepTitle (e.summary.getD "Untitled") then .SLEEP_MARKER
  else if (e.start.date).isSome then .ALL_DAY
  else if !(is_solo_event e myEmail) then .HAS_ATTENDEES
  else .SHIFTABLE

/-! ## The orchestrator (`main`) -/

inductive Outcome
  | skippedSleep | skippedAllDay | skippedAttendees | wouldShift | didShift
deriving Repr, DecidableEq

def Outcome.classOf : Outcome → Classification
  | .skippedSleep => .SLEEP_MARKER
  | .skippedAllDay => .ALL_DAY
  | .skippedAttendees => .HAS_ATTENDEES
  | .wouldShift => .SHIFTABLE
  | .didShift => .SHIFTABLE

structure LoopState where
  shifted : Nat
  skipped : Nat
  updates : List String
  outcomes : List Outcome
deriving Repr, DecidableEq

/-- One iteration of the `for event in events` loop (lines 410-438).
`oracle` decides whether the `updateEvent` call for a given event id
succeeds; an uncaught exception is an `Except.error` carrying the state at
the moment it is raised. -/
def stepEvent (dry : Bool) (oracle : String → Bool) (off : Int)
    (myEmail : String) (st : LoopState) (e : CalEvent) :
    Except LoopState LoopState :=
  if sleepTitle (e.summary.getD "Untitled") then
    .ok { st with skipped := st.skipped + 1,
                  outcomes := st.outcomes ++ [.skippedSleep] }
  else if (e.start.date).isSome then
    .ok { st with skipped := st.skipped + 1,
                  outcomes := st.outcomes ++ [.skippedAllDay] }
  else if !(is_solo_event e myEmail) then
    .ok { st with skipped := st.skipped + 1,
                  outcomes := st.outcomes ++ [.skippedAttendees] }
  else if (e.start.dateTime.getD "").data = [] then
    .ok st
  else
    match fromisoformatL (replaceZL (e.start.dateTime.getD "").data) with
    | none => .error st
    | some sdt =>
      match addMinutesDT off sdt with
      | none => .error st
      | some _ =>
        if dry then
          .ok { st with shifted := st.shifted + 1,
                        outcomes := st.outcomes ++ [.wouldShift] }
        else
          match e.end_.dateTime with
          | none => .error st
          | some es =>
            match fromisoformatL (replaceZL es.data) with
            | none => .error st
            | some edt =>
              match addMinutesDT off edt with
              | none => .error st
              | some _ =>
                if oracle e.id then
                  .ok { st with
                        shifted := st.shifted + 1,
                        updates := st.updates ++ [e.id],
                        outcomes := st.outcomes ++ [.didShift] }
                else .error { st with updates := st.updates ++ [e.id] }

def runLoop (dry : Bool) (oracle : String → Bool) (off : Int)
    (myEmail : String) : LoopState → List CalEvent →
    Except LoopState LoopState
  | st, [] => .ok st
  | st, e :: es =>
    match stepEvent dry oracle off myEmail st e with
    | .ok st' => runLoop dry oracle off myEmail st' es
    | .error st' => .error st'

/-- `find_sleep_event` (lines 289-295; note the `''` summary default here,
against `'Untitled'` in the main loop). -/
def find_sleep_event (events : List CalEvent) : Option CalEvent :=
  events.find? (fun e => sleepTitle (e.summary.getD ""))

/-- `get_expected_wake_time` (lines 298-311); a `fromisoformat` parse
error, which would propagate as an uncaught `ValueError`, is conflated
with the `None` returns — both end the run with a nonzero exit status and
zero updates. -/
def get_expected_wake_time (events : List CalEvent) : Option PyDateTime := do
  let se ← find_sleep_event events
  match se.end_.dateTime with
  | none => none
  | some s =>
    if s.data = [] then none
    else if endsWithZL s.data then fromisoformatL (replaceZL s.data)
    else fromisoformatL s.data

/-- `datetime.replace(tzinfo=None)`. -/
def stripTz (v : PyDateTime) : PyDateTime := { v with tz := none }

/-- Microseconds from the epoch to the naive wall-clock position. -/
def naiveTotalMicros (v : PyDateTime) : Int :=
  ((daysFromCivil v.year v.month v.day : Int) * 86400 +
    (v.hour : Int) * 3600 + (v.minute : Int) * 60 + (v.second : Int)) * 1000000 +
    (v.microsecond : Int)

/-- The offset computation of `main` (lines 392-396):
`int((actual_naive - expected_naive).total_seconds() / 60)` — `int()`
truncates toward zero, modelled by `Int.tdiv` on exact microseconds. -/
def computeOffsetMinutes (actual expected : PyDateTime) : Int :=
  Int.tdiv (naiveTotalMicros (stripTz actual) - naiveTotalMicros (stripTz expected))
    60000000

/-- `if args.offset:` — Python truthiness on the parsed flag. -/
def truthyOffset : Option Int → Bool
  | some v => decide (v ≠ 0)
  | none => false

/-- Offset resolution in `main` (lines 373-396). -/
def mainOffset (argsOffset : Option Int) (actualWake : Option PyDateTime)
    (events : List CalEvent) : Option Int :=
  if truthyOffset argsOffset then argsOffset
  else do
    let aw ← actualWake
    let ew ← get_expected_wake_time events
    some (computeOffsetMinutes aw ew)

inductive RunResult
  | fatal
  | noAction
  | finished (st : LoopState)
  | crashed (st : LoopState)
deriving Repr, DecidableEq

/-- The `updateEvent` calls issued during a run. -/
def RunResult.updateCalls : RunResult → List String
  | .fatal => []
  | .noAction => []
  | .finished st => st.updates
  | .crashed st => st.updates

/-- The per-event selection outcomes reported during a run, as
classifications. -/
def RunResult.classes : RunResult → List Classification
  | .fatal => []
  | .noAction => []
  | .finished st => st.outcomes.map Outcome.classOf
  | .crashed st => st.outcomes.map Outcome.classOf

/-- End-to-end `main` (lines 356-440), after authentication and event
fetch: `fatal` is an exit with nonzero status before the loop, `noAction`
the clean exit-0 for offset ≤ 0, `finished` a completed loop, `crashed` an
uncaught exception escaping the loop. -/
def mainRun (argsOffset : Option Int) (dry : Bool)
    (actualWake : Option PyDateTime) (events : List CalEvent)
    (myEmail : String) (oracle : String → Bool) : RunResult :=
  match mainOffset argsOffset actualWake events with
  | none => .fatal
  | some off =>
    if off ≤ 0 then .noAction
    else
      match runLoop dry oracle off myEmail ⟨0, 0, [], []⟩ events with
      | .ok st => .finished st
      | .error st => .crashed st

/-! ## The webhook handler (`webhook_server.py`) -/

structure WebhookBody where
  event_type : Option String
  data_type : Option String
deriving Repr, DecidableEq

structure WebhookResponse where
  status : Nat
  triggered : Bool
  shiftOk : Bool
deriving Repr, DecidableEq

/-- `oura_webhook` (`webhook_server.py` lines 45-93) on a parsed JSON
body: the `X-Oura-Signature` header is read (line 52) but the
`verify_signature` check is commented out (lines 54-57), so the `sig`
argument is dead on every path.  `runExit` is the subprocess return code
of the triggered `calendar_shift.py` run. -/
def oura_webhook (runExit : Nat) (body : WebhookBody)
    (sig : Option String) : WebhookResponse :=
  if body.data_type == some "sleep" && body.event_type == some "create" then
    { status := 200, triggered := true, shiftOk := runExit == 0 }
  else
    { status := 200, triggered := false, shiftOk := true }

def alwaysOk : String → Bool := fun x => x = x |> fun _ => true

def failOracle : String → Bool := fun x => x = x |> fun _ => false

def cexC2Event : CalEvent :=
  { id := "e1", summary := some "Sleep",
    start := ⟨none, some "2024-01-15T23:00:00Z"⟩,
    end_ := ⟨none, some "2024-01-16T07:00:00Z"⟩,
    attendees := [⟨some "other@example.com", none⟩] }

def cexC2WitnessEvent : CalEvent :=
  { id := "w2", summary := some "Team Sync",
    start := ⟨none, some "2024-01-15T09:00:00Z"⟩,
    end_ := ⟨none, some "2024-01-15T09:30:00Z"⟩,
    attendees := [⟨some "me@example.com", some true⟩,
                  ⟨some "colleague@example.com", none⟩] }

/-- The spec's own description of the offset calculation (§4.3): the
difference of the two tzinfo-stripped timestamps, converted to whole
minutes with truncation toward zero (floor division of the absolute
difference, negated on the negative side). -/
def specOffsetMinutes (actual expected : PyDateTime) : Int :=
  if 0 ≤ naiveTotalMicros (stripTz actual) - naiveTotalMicros (stripTz expected) then
    (naiveTotalMicros (stripTz actual) - naiveTotalMicros (stripTz expected)) / 60000000
  else
    -((naiveTotalMicros (stripTz expected) - naiveTotalMicros (stripTz actual)) / 60000000)

def RunResult.isFinished : RunResult → Bool
  | .finished _ => true
  | _ => false

def c7e : CalEvent :=
  { id := "w7", summary := some "Gym",
    start := { date := none, dateTime := some "2024-01-15T07:00:00Z" },
    end_ := { date := none, dateTime := some "2024-01-15T08:00:00Z" },
    attendees := [] }

def c8e1 : CalEvent :=
  { id := "id1", summary := some "Gym",
    start := { date := none, dateTime := some "2024-01-15T07:30:00Z" },
    end_ := { date := none, dateTime := some "2024-01-15T08:30:00Z" },
    attendees := [] }

def c8e2 : CalEvent :=
  { id := "id2", summary := some "Lunch",
    start := { date := none, dateTime := some "2024-01-15T12:00:00Z" },
    end_ := { date := none, dateTime := some "2024-01-15T13:00:00Z" },
    attendees := [] }

/-- The shift of this event would go through: the start string is
non-empty, start and end both parse, and both shifted datetimes are in
range, so the only thing that can still fail is the `updateEvent` call. -/
def shiftReady (off : Int) (e : CalEvent) : Bool :=
  if (e.start.dateTime.getD "").data = [] then false
  else
    match fromisoformatL (replaceZL (e.start.dateTime.getD "").data) with
    | none => false
    | some sdt =>
      match addMinutesDT off sdt with
      | none => false
      | some _ =>
        match e.end_.dateTime with
        | none => false
        | some es =>
          match fromisoformatL (replaceZL es.data) with
          | none => false
          | some edt => (addMinutesDT off edt).isSome

/-- The event's start carries a date (all-day) or a non-empty dateTime;
line 428's `if start_time:` silently drops events with neither. -/
def wellStart (e : CalEvent) : Bool :=
  e.start.date.isSome || !(decide ((e.start.dateTime.getD "").data = []))

def c9bad : CalEvent :=
  { id := "b9", summary := some "Errand",
    start := { date := none, dateTime := none },
    end_ := { date := none, dateTime := none },
    attendees := [] }

def c9s : CalEvent :=
  { id := "s9", summary := some "Sleep",
    start := { date := none, dateTime := some "2024-01-14T23:00:00Z" },
    end_ := { date := none, dateTime := some "2024-01-15T07:00:00Z" },
    attendees := [] }

def c9g : CalEvent :=
  { id := "g9", summary := some "Run",
    start := { date := none, dateTime := some "2024-01-15T09:00:00Z" },
    end_ := { date := none, dateTime := some "2024-01-15T10:00:00Z" },
    attendees := [] }

/-! ## Theorems -/

theorem isLeapYear_iff (y : Nat) :
    isLeapYear y = true ↔ (y % 4 = 0 ∧ (y % 100 ≠ 0 ∨ y % 400 = 0)) := by
  simp [isLeapYear]

theorem yearStartDays_succ (y : Nat) :
    yearStartDays (y + 1) = yearStartDays y + daysInYearM y := by
  have h := isLeapYear_iff (y + 1)
  have h4 : (y + 1) / 4 = y / 4 + if 4 ∣ y + 1 then 1 else 0 := Nat.succ_div y 4
  have h100 : (y + 1) / 100 = y / 100 + if 100 ∣ y + 1 then 1 else 0 := Nat.succ_div y 100
  have h400 : (y + 1) / 400 = y / 400 + if 400 ∣ y + 1 then 1 else 0 := Nat.succ_div y 400
  unfold daysInYearM yearStartDays
  by_cases hl : isLeapYear (y + 1) = true
  · rw [if_pos hl]
    have hp := h.mp hl
    clear h hl
    split_ifs at h4 h100 h400 <;> omega
  · rw [if_neg hl]
    have hp : ¬((y + 1) % 4 = 0 ∧ ((y + 1) % 100 ≠ 0 ∨ (y + 1) % 400 = 0)) :=
      fun hc => hl (h.mpr hc)
    clear h hl
    split_ifs at h4 h100 h400 <;> omega

theorem daysInYearM_cases (y : Nat) : daysInYearM y = 365 ∨ daysInYearM y = 366 := by
  unfold daysInYearM; split_ifs <;> simp

theorem yearStartDays_mono {a b : Nat} (h : a ≤ b) :
    yearStartDays a ≤ yearStartDays b := by
  induction b with
  | zero =>
    have ha : a = 0 := by omega
    subst ha; exact le_refl _
  | succ n ih =>
    rcases Nat.lt_or_ge a (n + 1) with h' | h'
    · have h1 := ih (by omega)
      have h2 := yearStartDays_succ n
      have h3 := daysInYearM_cases n
      omega
    · have ha : a = n + 1 := by omega
      subst ha; exact le_refl _

theorem monthStartM_succ (mp : Nat) (h : mp ≤ 10) :
    monthStartM (mp + 1) = monthStartM mp + monthLenM mp := by
  interval_cases mp <;> rfl

theorem civilYearAux_spec (fuel : Nat) : ∀ y z, z < 365 * fuel →
    y ≤ (civilYearAux fuel y z).1 ∧
    (civilYearAux fuel y z).2 < daysInYearM (civilYearAux fuel y z).1 ∧
    yearStartDays y + z = yearStartDays (civilYearAux fuel y z).1 + (civilYearAux fuel y z).2 := by
  induction fuel with
  | zero => intro y z h; omega
  | succ n ih =>
    intro y z h
    unfold civilYearAux
    split
    · exact ⟨le_refl _, by assumption, rfl⟩
    · rename_i hz
      have hlen := daysInYearM_cases y
      have h' : z - daysInYearM y < 365 * n := by omega
      obtain ⟨ih1, ih2, ih3⟩ := ih (y + 1) (z - daysInYearM y) h'
      refine ⟨by omega, ih2, ?_⟩
      rw [yearStartDays_succ] at ih3
      omega

theorem monthOfDoyAux_spec (fuel : Nat) : ∀ mp r, mp + fuel = 11 →
    mp ≤ (monthOfDoyAux fuel mp r).1 ∧ (monthOfDoyAux fuel mp r).1 ≤ 11 ∧
    ((monthOfDoyAux fuel mp r).2 < monthLenM (monthOfDoyAux fuel mp r).1 ∨
      (monthOfDoyAux fuel mp r).1 = 11) ∧
    monthStartM mp + r = monthStartM (monthOfDoyAux fuel mp r).1 + (monthOfDoyAux fuel mp r).2 := by
  induction fuel with
  | zero =>
    intro mp r h
    unfold monthOfDoyAux
    exact ⟨le_refl _, by omega, Or.inr (by omega), rfl⟩
  | succ n ih =>
    intro mp r h
    unfold monthOfDoyAux
    split
    · exact ⟨le_refl _, by omega, Or.inl (by assumption), rfl⟩
    · obtain ⟨ih1, ih2, ih3, ih4⟩ := ih (mp + 1) (r - monthLenM mp) (by omega)
      refine ⟨by omega, ih2, ih3, ?_⟩
      rw [monthStartM_succ mp (by omega)] at ih4
      omega

theorem yearStartDays_zero : yearStartDays 0 = 0 := by decide

theorem monthStartM_zero : monthStartM 0 = 0 := by decide

theorem daysFromCivil_assemble (Y mp dm : Nat) (hmp : mp ≤ 11) :
    daysFromCivil
      (if (if mp < 10 then mp + 3 else mp - 9) ≤ 2 then Y + 1 else Y)
      (if mp < 10 then mp + 3 else mp - 9) (dm + 1)
      = yearStartDays Y + monthStartM mp + dm := by
  unfold daysFromCivil
  by_cases h : mp < 10
  · rw [if_pos h, if_neg (by omega), if_neg (by omega), if_pos (by omega),
      Nat.add_sub_cancel, Nat.add_sub_cancel, Nat.sub_zero]
  · rw [if_neg h, if_pos (by omega), if_pos (by omega), if_neg (by omega),
      Nat.add_sub_cancel, Nat.sub_add_cancel (by omega), Nat.add_sub_cancel]

/-- Roundtrip: converting days to a civil date and back is the identity. -/
theorem daysFromCivil_civilFromDays (z : Nat) :
    daysFromCivil (civilFromDays z).1 (civilFromDays z).2.1 (civilFromDays z).2.2 = z := by
  unfold civilFromDays
  obtain ⟨h1, h2, h3⟩ := civilYearAux_spec (z / 365 + 1) 0 z (by omega)
  obtain ⟨g1, g2, g3, g4⟩ :=
    monthOfDoyAux_spec 11 0 (civilYearAux (z / 365 + 1) 0 z).2 rfl
  rw [yearStartDays_zero] at h3
  rw [monthStartM_zero] at g4
  simp only
  rw [daysFromCivil_assemble _ _ _ g2]
  omega

theorem month_valid_helper (Y mp dm : Nat) (hmp : mp ≤ 11)
    (hdisj : dm < monthLenM mp ∨ mp = 11)
    (hdoy : monthStartM mp + dm < daysInYearM Y) :
    1 ≤ (if mp < 10 then mp + 3 else mp - 9) ∧
    (if mp < 10 then mp + 3 else mp - 9) ≤ 12 ∧
    1 ≤ dm + 1 ∧
    dm + 1 ≤ daysInMonth
      (if (if mp < 10 then mp + 3 else mp - 9) ≤ 2 then Y + 1 else Y)
      (if mp < 10 then mp + 3 else mp - 9) := by
  have hyl := daysInYearM_cases Y
  interval_cases mp <;>
    simp only [monthLenM] at hdisj <;>
    simp only [monthStartM] at hdoy <;>
    norm_num [daysInMonth] <;>
    try omega
  -- remaining: mp = 11, February of year Y + 1
  by_cases hL : isLeapYear (Y + 1) = true
  · rw [if_pos hL]
    have h366 : daysInYearM Y = 366 := by unfold daysInYearM; rw [if_pos hL]
    omega
  · rw [if_neg hL]
    have h365 : daysInYearM Y = 365 := by unfold daysInYearM; rw [if_neg hL]
    omega

/-- The civil date produced by `civilFromDays` is a valid calendar date. -/
theorem civilFromDays_valid (z : Nat) :
    1 ≤ (civilFromDays z).2.1 ∧ (civilFromDays z).2.1 ≤ 12 ∧
    1 ≤ (civilFromDays z).2.2 ∧
    (civilFromDays z).2.2 ≤ daysInMonth (civilFromDays z).1 (civilFromDays z).2.1 := by
  unfold civilFromDays
  obtain ⟨h1, h2, h3⟩ := civilYearAux_spec (z / 365 + 1) 0 z (by omega)
  obtain ⟨g1, g2, g3, g4⟩ :=
    monthOfDoyAux_spec 11 0 (civilYearAux (z / 365 + 1) 0 z).2 rfl
  rw [monthStartM_zero] at g4
  simp only
  exact month_valid_helper _ _ _ g2 g3 (by omega)

theorem yearDecompUnique {Y1 Y2 r1 r2 : Nat} (h1 : r1 < daysInYearM Y1)
    (h2 : r2 < daysInYearM Y2)
    (he : yearStartDays Y1 + r1 = yearStartDays Y2 + r2) : Y1 = Y2 ∧ r1 = r2 := by
  rcases lt_trichotomy Y1 Y2 with h | h | h
  · exfalso
    have hs := yearStartDays_succ Y1
    have hm := yearStartDays_mono (show Y1 + 1 ≤ Y2 by omega)
    omega
  · subst h; omega
  · exfalso
    have hs := yearStartDays_succ Y2
    have hm := yearStartDays_mono (show Y2 + 1 ≤ Y1 by omega)
    omega

theorem monthStartM_mono {a b : Nat} (hab : a ≤ b) (hb : b ≤ 11) :
    monthStartM a ≤ monthStartM b := by
  induction b with
  | zero =>
    have ha : a = 0 := by omega
    subst ha; exact le_refl _
  | succ n ih =>
    rcases Nat.lt_or_ge a (n + 1) with h' | h'
    · have h1 := ih (by omega) (by omega)
      have h2 := monthStartM_succ n (by omega)
      omega
    · have ha : a = n + 1 := by omega
      subst ha; exact le_refl _

theorem monthDecompUnique {mp1 mp2 r1 r2 : Nat} (hm1 : mp1 ≤ 11) (hm2 : mp2 ≤ 11)
    (h1 : r1 < monthLenM mp1 ∨ mp1 = 11) (h2 : r2 < monthLenM mp2 ∨ mp2 = 11)
    (he : monthStartM mp1 + r1 = monthStartM mp2 + r2) : mp1 = mp2 ∧ r1 = r2 := by
  rcases lt_trichotomy mp1 mp2 with h | h | h
  · exfalso
    have hr1 : r1 < monthLenM mp1 := by
      rcases h1 with h1 | h1
      · exact h1
      · omega
    have hs := monthStartM_succ mp1 (by omega)
    have hm := monthStartM_mono (show mp1 + 1 ≤ mp2 by omega) hm2
    omega
  · subst h; omega
  · exfalso
    have hr2 : r2 < monthLenM mp2 := by
      rcases h2 with h2 | h2
      · exact h2
      · omega
    have hs := monthStartM_succ mp2 (by omega)
    have hm := monthStartM_mono (show mp2 + 1 ≤ mp1 by omega) hm1
    omega

theorem month_fwd_helper (y m d : Nat) (hy : 1 ≤ y) (hm1 : 1 ≤ m) (hm2 : m ≤ 12)
    (hd1 : 1 ≤ d) (hd2 : d ≤ daysInMonth y m) :
    (if 2 < m then m - 3 else m + 9) ≤ 11 ∧
    (d - 1 < monthLenM (if 2 < m then m - 3 else m + 9) ∨
      (if 2 < m then m - 3 else m + 9) = 11) ∧
    monthStartM (if 2 < m then m - 3 else m + 9) + (d - 1) <
      daysInYearM (y - (if m ≤ 2 then 1 else 0)) := by
  rcases (show m = 1 ∨ m = 2 ∨ (3 ≤ m ∧ m ≤ 12) by omega) with h | h | h
  · subst h
    norm_num [daysInMonth] at hd2
    norm_num [monthLenM, monthStartM]
    have hyl := daysInYearM_cases (y - 1)
    omega
  · subst h
    norm_num [daysInMonth] at hd2
    norm_num [monthLenM, monthStartM]
    have hyy : y - 1 + 1 = y := by omega
    by_cases hL : isLeapYear y = true
    · have h366 : daysInYearM (y - 1) = 366 := by unfold daysInYearM; rw [hyy, if_pos hL]
      rw [if_pos hL] at hd2
      omega
    · have h365 : daysInYearM (y - 1) = 365 := by unfold daysInYearM; rw [hyy, if_neg hL]
      rw [if_neg hL] at hd2
      omega
  · obtain ⟨h3, h12⟩ := h
    rw [if_pos (by omega : 2 < m), if_neg (by omega : ¬ m ≤ 2), Nat.sub_zero]
    have hyl := daysInYearM_cases y
    interval_cases m <;> norm_num [daysInMonth] at hd2 <;>
      norm_num [monthLenM, monthStartM] <;> omega

/-- Roundtrip: a valid civil date survives conversion to days and back. -/
theorem civilFromDays_daysFromCivil (y m d : Nat) (hy : 1 ≤ y) (hm1 : 1 ≤ m)
    (hm2 : m ≤ 12) (hd1 : 1 ≤ d) (hd2 : d ≤ daysInMonth y m) :
    civilFromDays (daysFromCivil y m d) = (y, m, d) := by
  obtain ⟨f1, f2, f3⟩ := month_fwd_helper y m d hy hm1 hm2 hd1 hd2
  set z := daysFromCivil y m d with hz
  have hz2 : z = yearStartDays (y - (if m ≤ 2 then 1 else 0)) +
      monthStartM (if 2 < m then m - 3 else m + 9) + (d - 1) := by
    rw [hz]; rfl
  obtain ⟨p1, p2, p3⟩ := civilYearAux_spec (z / 365 + 1) 0 z (by omega)
  obtain ⟨q1, q2, q3, q4⟩ :=
    monthOfDoyAux_spec 11 0 (civilYearAux (z / 365 + 1) 0 z).2 rfl
  rw [yearStartDays_zero] at p3
  rw [monthStartM_zero] at q4
  have hYu := yearDecompUnique f3 p2 (by omega :
    yearStartDays (y - (if m ≤ 2 then 1 else 0)) +
      (monthStartM (if 2 < m then m - 3 else m + 9) + (d - 1)) =
    yearStartDays (civilYearAux (z / 365 + 1) 0 z).1 +
      (civilYearAux (z / 365 + 1) 0 z).2)
  have hMu := monthDecompUnique f1 q2 f2 q3 (by omega :
    monthStartM (if 2 < m then m - 3 else m + 9) + (d - 1) =
    monthStartM (monthOfDoyAux 11 0 (civilYearAux (z / 365 + 1) 0 z).2).1 +
      (monthOfDoyAux 11 0 (civilYearAux (z / 365 + 1) 0 z).2).2)
  unfold civilFromDays
  simp only
  rw [← hMu.1, ← hMu.2, ← hYu.1]
  by_cases hc : m ≤ 2
  · rw [if_neg (by omega : ¬ 2 < m)]
    rw [if_neg (by omega : ¬ m + 9 < 10), if_pos hc]
    rw [Nat.add_sub_cancel, if_pos (by omega : m ≤ 2)]
    rw [Nat.sub_add_cancel hd1, Nat.sub_add_cancel (by omega : 1 ≤ y)]
  · rw [if_pos (by omega : 2 < m)]
    rw [if_pos (by omega : m - 3 < 10), if_neg hc]
    rw [Nat.sub_add_cancel (by omega : 3 ≤ m), if_neg hc, Nat.sub_zero]
    rw [Nat.sub_add_cancel hd1]

theorem dchar_toNat (k : Nat) (h : k < 10) : (dchar k).toNat = 48 + k := by
  interval_cases k <;> decide

theorem digitOf_dchar (k : Nat) (h : k < 10) : digitOf (dchar k) = some k := by
  interval_cases k <;> decide

theorem isDigitChar_dchar (k : Nat) (h : k < 10) : isDigitChar (dchar k) = true := by
  interval_cases k <;> decide

theorem dval_dchar (k : Nat) (h : k < 10) : dval (dchar k) = k := by
  interval_cases k <;> decide

theorem dchar_ne_Z (k : Nat) (h : k < 10) : dchar k ≠ 'Z' := by
  interval_cases k <;> decide

theorem parse2_pad2 (n : Nat) (hn : n < 100) :
    parse2 (dchar (n / 10 % 10)) (dchar (n % 10)) = some n := by
  have h1 := digitOf_dchar (n / 10 % 10) (by omega)
  have h2 := digitOf_dchar (n % 10) (by omega)
  simp only [parse2, h1, h2, Option.bind_eq_bind, Option.some_bind, pure]
  have : 10 * (n / 10 % 10) + n % 10 = n := by omega
  rw [this]

theorem digitOf_le {c : Char} {n : Nat} (h : digitOf c = some n) : n ≤ 9 := by
  unfold digitOf isDigitChar at h
  split_ifs at h with hc
  rw [Bool.and_eq_true, decide_eq_true_eq, decide_eq_true_eq] at hc
  simp only [Option.some.injEq] at h
  unfold dval at h
  omega

theorem parse2_bound {a b : Char} {n : Nat} (h : parse2 a b = some n) : n ≤ 99 := by
  unfold parse2 at h
  cases ha : digitOf a with
  | none => rw [ha] at h; simp at h
  | some x =>
    cases hb : digitOf b with
    | none => rw [ha, hb] at h; simp at h
    | some y =>
      rw [ha, hb] at h
      simp only [Option.bind_eq_bind, Option.some_bind, Option.pure_def,
        Option.some.injEq] at h
      have hx := digitOf_le ha
      have hy := digitOf_le hb
      omega

theorem parse4_pad4 (n : Nat) (hn : n < 10000) :
    parse4 (dchar (n / 100 / 10 % 10)) (dchar (n / 100 % 10))
      (dchar (n % 100 / 10 % 10)) (dchar (n % 100 % 10)) = some n := by
  have h1 := parse2_pad2 (n / 100) (by omega)
  have h2 := parse2_pad2 (n % 100) (by omega)
  simp only [parse4, h1, h2, Option.bind_eq_bind, Option.some_bind, Option.pure_def]
  have h : 100 * (n / 100) + n % 100 = n := by omega
  rw [h]

theorem parse4_bound {a b c d : Char} {n : Nat} (h : parse4 a b c d = some n) :
    n ≤ 9999 := by
  unfold parse4 at h
  cases ha : parse2 a b with
  | none => rw [ha] at h; simp at h
  | some x =>
    cases hb : parse2 c d with
    | none => rw [ha, hb] at h; simp at h
    | some y =>
      rw [ha, hb] at h
      simp only [Option.bind_eq_bind, Option.some_bind, Option.pure_def,
        Option.some.injEq] at h
      have hx := parse2_bound ha
      have hy := parse2_bound hb
      omega

theorem takeDigits_split (dl l : List Char) (hdl : ∀ c ∈ dl, isDigitChar c = true)
    (hl : headNotDigit l = true) : takeDigits (dl ++ l) = (dl, l) := by
  induction dl with
  | nil =>
    simp only [List.nil_append]
    cases l with
    | nil => rfl
    | cons c cs =>
      unfold headNotDigit at hl
      simp only [Bool.not_eq_true'] at hl
      unfold takeDigits
      rw [if_neg (by simp [hl])]
  | cons c cs ih =>
    have hc := hdl c (List.mem_cons_self _ _)
    simp only [List.cons_append]
    unfold takeDigits
    rw [if_pos hc, ih (fun x hx => hdl x (List.mem_cons_of_mem _ hx))]

theorem isDigitChar_dval_le {c : Char} (h : isDigitChar c = true) : dval c ≤ 9 := by
  rw [isDigitChar, Bool.and_eq_true, decide_eq_true_eq, decide_eq_true_eq] at h
  unfold dval
  omega

theorem digitsValAux_lt (l : List Char) (hall : ∀ c ∈ l, isDigitChar c = true) :
    ∀ acc : Nat, digitsValAux l acc < (acc + 1) * 10 ^ l.length := by
  induction l with
  | nil =>
    intro acc
    simp only [digitsValAux, List.length_nil, pow_zero, Nat.mul_one]
    omega
  | cons c cs ih =>
    intro acc
    have hd : dval c ≤ 9 := isDigitChar_dval_le (hall c (List.mem_cons_self _ _))
    have h1 := ih (fun x hx => hall x (List.mem_cons_of_mem _ hx)) (acc * 10 + dval c)
    have h2 : (acc * 10 + dval c + 1) * 10 ^ cs.length ≤
        (acc + 1) * 10 ^ (cs.length + 1) := by
      rw [pow_succ]
      have h3 : acc * 10 + dval c + 1 ≤ (acc + 1) * 10 := by omega
      calc (acc * 10 + dval c + 1) * 10 ^ cs.length
          ≤ ((acc + 1) * 10) * 10 ^ cs.length := Nat.mul_le_mul_right _ h3
        _ = (acc + 1) * (10 ^ cs.length * 10) := by ring
    unfold digitsValAux
    simp only [List.length_cons]
    omega

theorem digitsVal_lt (l : List Char) (hall : ∀ c ∈ l, isDigitChar c = true) :
    digitsVal l < 10 ^ l.length := by
  have h := digitsValAux_lt l hall 0
  simpa [digitsVal] using h

theorem takeDigits_digits (l : List Char) :
    ∀ c ∈ (takeDigits l).1, isDigitChar c = true := by
  induction l with
  | nil => intro c hc; simp [takeDigits] at hc
  | cons x xs ih =>
    intro c hc
    unfold takeDigits at hc
    by_cases hx : isDigitChar x
    · rw [if_pos hx] at hc
      rcases List.mem_cons.mp hc with h | h
      · subst h; exact hx
      · exact ih c h
    · rw [if_neg hx] at hc
      simp at hc

theorem parseTz_fmtTzL (off : Int) (h1 : -1439 ≤ off) (h2 : off ≤ 1439) :
    parseTz (fmtTzL off) = some (some off) := by
  unfold fmtTzL
  by_cases hneg : off < 0
  · rw [if_pos hneg]
    have hb : (-off).toNat ≤ 1439 := by omega
    have hp1 := parse2_pad2 ((-off).toNat / 60) (by omega)
    have hp2 := parse2_pad2 ((-off).toNat % 60) (by omega)
    simp only [pad2, List.cons_append, List.nil_append, parseTz, hp1, hp2,
      Option.bind_eq_bind, Option.some_bind]
    rw [if_pos (by omega)]
    simp only [Option.some.injEq]
    omega
  · rw [if_neg hneg]
    have hb : off.toNat ≤ 1439 := by omega
    have hp1 := parse2_pad2 (off.toNat / 60) (by omega)
    have hp2 := parse2_pad2 (off.toNat % 60) (by omega)
    simp only [pad2, List.cons_append, List.nil_append, parseTz, hp1, hp2,
      Option.bind_eq_bind, Option.some_bind]
    rw [if_pos (by omega)]
    simp only [Option.some.injEq]
    omega

theorem parseTz_bound {l : List Char} {tz : Option Int} (h : parseTz l = some tz) :
    -1439 ≤ tz.getD 0 ∧ tz.getD 0 ≤ 1439 := by
  unfold parseTz at h
  split at h
  · simp only [Option.some.injEq] at h
    subst h; simp
  · rename_i h1 h2 m1 m2
    cases ha : parse2 h1 h2 with
    | none => rw [ha] at h; simp at h
    | some x =>
      cases hb : parse2 m1 m2 with
      | none => rw [ha, hb] at h; simp at h
      | some y =>
        rw [ha, hb] at h
        simp only [Option.bind_eq_bind, Option.some_bind] at h
        split_ifs at h with hc
        simp only [Option.some.injEq] at h
        subst h; simp; omega
  · rename_i h1 h2 m1 m2
    cases ha : parse2 h1 h2 with
    | none => rw [ha] at h; simp at h
    | some x =>
      cases hb : parse2 m1 m2 with
      | none => rw [ha, hb] at h; simp at h
      | some y =>
        rw [ha, hb] at h
        simp only [Option.bind_eq_bind, Option.some_bind] at h
        split_ifs at h with hc
        simp only [Option.some.injEq] at h
        subst h; simp; omega
  · simp at h

theorem parseFracTz_bound {l : List Char} {us : Nat} {tz : Option Int}
    (h : parseFracTz l = some (us, tz)) :
    us ≤ 999999 ∧ -1439 ≤ tz.getD 0 ∧ tz.getD 0 ≤ 1439 := by
  unfold parseFracTz at h
  split at h
  · simp only [Option.some.injEq, Prod.mk.injEq] at h
    obtain ⟨h1, h2⟩ := h
    subst h1; subst h2
    simp
  · rename_i rest
    split_ifs at h with hlen
    cases ht : parseTz (takeDigits rest).2 with
    | none => rw [ht] at h; simp at h
    | some tz' =>
      rw [ht] at h
      simp only [Option.bind_eq_bind, Option.some_bind, Option.some.injEq,
        Prod.mk.injEq] at h
      obtain ⟨h1, h2⟩ := h
      subst h2
      have hv := digitsVal_lt (takeDigits rest).1 (takeDigits_digits rest)
      have hb := parseTz_bound ht
      refine ⟨?_, hb.1, hb.2⟩
      subst h1
      have hle : (takeDigits rest).1.length ≤ 6 := hlen.2
      have hge : 1 ≤ (takeDigits rest).1.length := hlen.1
      have : digitsVal (takeDigits rest).1 * 10 ^ (6 - (takeDigits rest).1.length) <
          10 ^ (takeDigits rest).1.length * 10 ^ (6 - (takeDigits rest).1.length) :=
        Nat.mul_lt_mul_of_lt_of_le hv (le_refl _) (by positivity)
      have hpow : (10 : Nat) ^ (takeDigits rest).1.length *
          10 ^ (6 - (takeDigits rest).1.length) = 10 ^ 6 := by
        rw [← pow_add]
        congr 1
        omega
      omega
  · rename_i hne1 hne2
    cases ht : parseTz l with
    | none => rw [ht] at h; simp at h
    | some tz' =>
      rw [ht] at h
      simp only [Option.bind_eq_bind, Option.some_bind, Option.some.injEq,
        Prod.mk.injEq] at h
      obtain ⟨h1, h2⟩ := h
      subst h1; subst h2
      have hb := parseTz_bound ht
      exact ⟨by omega, hb.1, hb.2⟩

theorem fromisoformatL_valid {l : List Char} {v : PyDateTime}
    (h : fromisoformatL l = some v) : validDT v := by
  unfold fromisoformatL at h
  split at h
  · simp only [Option.bind_eq_bind, Option.bind_eq_some] at h
    obtain ⟨y, hy, mo, hmo, d, hd, hh, hhh, mi, hmi, s, hs, p, hp, hfin⟩ := h
    split_ifs at hfin with hc
    simp only [Option.some.injEq] at hfin
    subst hfin
    have hby := parse4_bound hy
    have hpb := parseFracTz_bound (show parseFracTz _ = some (p.1, p.2) from hp)
    exact ⟨hc.1, hby, hc.2.1, hc.2.2.1, hc.2.2.2.1, hc.2.2.2.2.1,
      hc.2.2.2.2.2.1, hc.2.2.2.2.2.2.1, hc.2.2.2.2.2.2.2, hpb.1, hpb.2.1, hpb.2.2⟩
  · simp at h

theorem pad6_all_digits (n : Nat) : ∀ c ∈ pad6 n, isDigitChar c = true := by
  intro c hc
  simp only [pad6, pad2, List.cons_append, List.nil_append, List.mem_cons,
    List.not_mem_nil, or_false] at hc
  rcases hc with h | h | h | h | h | h <;> subst h <;>
    exact isDigitChar_dchar _ (by omega)

theorem pad6_length (n : Nat) : (pad6 n).length = 6 := by
  simp [pad6, pad2]

theorem digitsVal_pad6 (n : Nat) (hn : n ≤ 999999) : digitsVal (pad6 n) = n := by
  unfold digitsVal pad6 pad2
  simp only [List.cons_append, List.nil_append, digitsValAux]
  rw [dval_dchar _ (by omega), dval_dchar _ (by omega), dval_dchar _ (by omega),
    dval_dchar _ (by omega), dval_dchar _ (by omega), dval_dchar _ (by omega)]
  omega

theorem daysInMonth_le (y m : Nat) : daysInMonth y m ≤ 31 := by
  unfold daysInMonth
  split_ifs <;> omega

theorem parseFracTz_cons (c : Char) (cs : List Char) (hc : c ≠ '.') :
    parseFracTz (c :: cs) = (do
      let tz ← parseTz (c :: cs)
      some (0, tz)) := by
  unfold parseFracTz
  split
  · rename_i heq
    simp at heq
  · rename_i rest heq
    exfalso
    apply hc
    injection heq with hh ht
  · rfl

theorem parseFracTz_frac (us : Nat) (tzl : List Char) (tz : Option Int)
    (hus : us ≤ 999999) (hhead : headNotDigit tzl = true)
    (htz : parseTz tzl = some tz) :
    parseFracTz ('.' :: (pad6 us ++ tzl)) = some (us, tz) := by
  have hsplit := takeDigits_split (pad6 us) tzl (pad6_all_digits us) hhead
  simp only [parseFracTz, hsplit, pad6_length, htz, Option.bind_eq_bind,
    Option.some_bind]
  rw [if_pos (by omega)]
  rw [digitsVal_pad6 us hus]
  norm_num

theorem headNotDigit_fmtTzL (off : Int) : headNotDigit (fmtTzL off) = true := by
  unfold fmtTzL
  split_ifs <;> rfl

theorem parseFracTz_fmtTzL (off : Int) (h1 : -1439 ≤ off) (h2 : off ≤ 1439) :
    parseFracTz (fmtTzL off) = some (0, some off) := by
  have hp := parseTz_fmtTzL off h1 h2
  by_cases hneg : off < 0
  · have hshape : fmtTzL off =
        '-' :: (pad2 ((-off).toNat / 60) ++ ':' :: pad2 ((-off).toNat % 60)) := by
      unfold fmtTzL; rw [if_pos hneg]
    rw [hshape] at hp ⊢
    rw [parseFracTz_cons _ _ (by decide), hp]
    rfl
  · have hshape : fmtTzL off =
        '+' :: (pad2 (off.toNat / 60) ++ ':' :: pad2 (off.toNat % 60)) := by
      unfold fmtTzL; rw [if_neg hneg]
    rw [hshape] at hp ⊢
    rw [parseFracTz_cons _ _ (by decide), hp]
    rfl

/-- Parsing the output of the basic formatter followed by any
fraction/offset tail recovers the wall-clock fields. -/
theorem fromiso_fmt (v : PyDateTime) (rest : List Char) (us' : Nat) (tz' : Option Int)
    (h1 : 1 ≤ v.year) (h2 : v.year ≤ 9999) (h3 : 1 ≤ v.month) (h4 : v.month ≤ 12)
    (h5 : 1 ≤ v.day) (h6 : v.day ≤ daysInMonth v.year v.month) (h7 : v.hour ≤ 23)
    (h8 : v.minute ≤ 59) (h9 : v.second ≤ 59)
    (hrest : parseFracTz rest = some (us', tz')) :
    fromisoformatL (fmtBasicL v ++ rest) =
      some ⟨v.year, v.month, v.day, v.hour, v.minute, v.second, us', tz'⟩ := by
  have hp4 := parse4_pad4 v.year (by omega)
  have hpm := parse2_pad2 v.month (by omega)
  have hpd := parse2_pad2 v.day
    (by have := daysInMonth_le v.year v.month; omega)
  have hph := parse2_pad2 v.hour (by omega)
  have hpn := parse2_pad2 v.minute (by omega)
  have hps := parse2_pad2 v.second (by omega)
  unfold fmtBasicL pad4 pad2
  simp only [List.cons_append, List.nil_append, List.append_assoc]
  simp only [fromisoformatL, hp4, hpm, hpd, hph, hpn, hps, hrest,
    Option.bind_eq_bind, Option.some_bind]
  rw [if_pos ⟨h1, h3, h4, h5, h6, h7, h8, h9⟩]

theorem dchar_mod_beq_Z (k : Nat) : (dchar (k % 10) == 'Z') = false :=
  beq_eq_false_iff_ne.mpr (dchar_ne_Z (k % 10) (Nat.mod_lt _ (by norm_num)))

theorem noZ_pad2 (n : Nat) : noZ (pad2 n) = true := by
  simp [noZ, pad2, dchar_mod_beq_Z]

theorem noZ_append (a b : List Char) : noZ (a ++ b) = (noZ a && noZ b) := by
  simp [noZ, List.all_append]

theorem noZ_cons (c : Char) (l : List Char) :
    noZ (c :: l) = (!(c == 'Z') && noZ l) := by
  simp [noZ]

theorem noZ_fmtBasicL (v : PyDateTime) : noZ (fmtBasicL v) = true := by
  unfold fmtBasicL pad4
  simp [noZ_append, noZ_cons, noZ_pad2]

theorem noZ_fmtTzL (off : Int) : noZ (fmtTzL off) = true := by
  unfold fmtTzL
  split_ifs <;> simp [noZ_append, noZ, noZ_pad2, pad2, dchar_mod_beq_Z]

theorem noZ_isoformatL (v : PyDateTime) : noZ (isoformatL v) = true := by
  unfold isoformatL
  rw [noZ_append, noZ_append, noZ_fmtBasicL]
  have h1 : noZ (if v.microsecond = 0 then [] else '.' :: pad6 v.microsecond) = true := by
    split_ifs
    · rfl
    · simp [noZ, pad6, pad2, dchar_mod_beq_Z]
  have h2 : noZ (match v.tz with | none => [] | some off => fmtTzL off) = true := by
    cases v.tz with
    | none => rfl
    | some off => exact noZ_fmtTzL off
  rw [h1, h2]
  rfl

theorem replaceZL_append (a b : List Char) :
    replaceZL (a ++ b) = replaceZL a ++ replaceZL b := by
  induction a with
  | nil => rfl
  | cons c cs ih =>
    simp only [List.cons_append, replaceZL, List.append_eq, ih, List.append_assoc]

theorem replaceZL_noZ (l : List Char) (h : noZ l = true) : replaceZL l = l := by
  induction l with
  | nil => rfl
  | cons c cs ih =>
    unfold noZ at h
    simp only [List.all_cons, Bool.and_eq_true, Bool.not_eq_true'] at h
    unfold replaceZL
    rw [if_neg (by simpa using h.1)]
    have := ih (by simp [noZ, h.2])
    rw [this]
    rfl

theorem replaceZL_fmtZL (v : PyDateTime) :
    replaceZL (fmtZL v) = fmtBasicL v ++ ['+', '0', '0', ':', '0', '0'] := by
  unfold fmtZL
  rw [replaceZL_append, replaceZL_noZ _ (noZ_fmtBasicL v)]
  rfl

theorem replaceZL_isoformatL (v : PyDateTime) :
    replaceZL (isoformatL v) = isoformatL v :=
  replaceZL_noZ _ (noZ_isoformatL v)

theorem endsWithZL_fmtZL (v : PyDateTime) : endsWithZL (fmtZL v) = true := by
  unfold endsWithZL fmtZL
  rw [List.getLast?_append_cons]
  rfl

theorem endsWithZL_of_getLast {l : List Char} {c : Char}
    (h : l.getLast? = some c) (hc : c ≠ 'Z') : endsWithZL l = false := by
  unfold endsWithZL
  rw [h]
  simpa using hc

theorem getLast?_pad2 (n : Nat) : (pad2 n).getLast? = some (dchar (n % 10)) := rfl

theorem endsWithZL_isoformatL (v : PyDateTime) : endsWithZL (isoformatL v) = false := by
  unfold isoformatL
  cases htz : v.tz with
  | some off =>
    have hfmt : ∃ k, (fmtTzL off).getLast? = some (dchar (k % 10)) := by
      unfold fmtTzL
      split_ifs
      · exact ⟨(-off).toNat % 60,
          by simp only [pad2, List.cons_append, List.nil_append]; rfl⟩
      · exact ⟨off.toNat % 60,
          by simp only [pad2, List.cons_append, List.nil_append]; rfl⟩
    obtain ⟨k, hk⟩ := hfmt
    have hne : fmtTzL off ≠ [] := by
      intro hc
      rw [hc] at hk
      simp at hk
    apply endsWithZL_of_getLast (c := dchar (k % 10))
    · rw [List.getLast?_append_of_ne_nil _
        (fun hc => hne (List.append_eq_nil.mp hc).2)]
      rw [List.getLast?_append_of_ne_nil _ hne, hk]
    · exact dchar_ne_Z _ (Nat.mod_lt _ (by norm_num))
  | none =>
    by_cases hus : v.microsecond = 0
    · rw [if_pos hus]
      simp only [List.append_nil]
      apply endsWithZL_of_getLast (c := dchar (v.second % 10))
      · unfold fmtBasicL pad4 pad2
        simp only [List.cons_append, List.nil_append]
        rfl
      · exact dchar_ne_Z _ (Nat.mod_lt _ (by norm_num))
    · rw [if_neg hus]
      simp only [List.append_nil]
      apply endsWithZL_of_getLast (c := dchar (v.microsecond % 100 % 10))
      · rw [List.getLast?_append_cons]
        simp only [pad6, pad2, List.cons_append, List.nil_append]
        rfl
      · exact dchar_ne_Z _ (Nat.mod_lt _ (by norm_num))

theorem addMinutesDT_some {delta : Int} {v w : PyDateTime}
    (h : addMinutesDT delta v = some w) :
    pyBaseMinutes w = pyBaseMinutes v + delta ∧
    w.second = v.second ∧ w.microsecond = v.microsecond ∧ w.tz = v.tz := by
  unfold addMinutesDT at h
  split_ifs at h with h1 h2
  simp only [Option.some.injEq] at h
  subst h
  refine ⟨?_, rfl, rfl, rfl⟩
  dsimp only [pyBaseMinutes] at h1 ⊢
  rw [daysFromCivil_civilFromDays]
  omega

theorem addMinutesDT_valid {delta : Int} {v w : PyDateTime} (hv : validDT v)
    (h : addMinutesDT delta v = some w) : validDT w := by
  obtain ⟨hb1, hb2, hb3, hb4⟩ := addMinutesDT_some h
  obtain ⟨_, _, _, _, _, _, _, _, hvs, hvu, hvt1, hvt2⟩ := hv
  unfold addMinutesDT at h
  split_ifs at h with h1 h2
  simp only [Option.some.injEq] at h
  have hcv := civilFromDays_valid ((pyBaseMinutes v + delta).toNat / 1440)
  subst h
  push_neg at h2
  unfold validDT
  dsimp only
  refine ⟨h2.1, h2.2, hcv.1, hcv.2.1, hcv.2.2.1, hcv.2.2.2, by omega, by omega,
    hvs, hvu, hvt1, hvt2⟩

theorem addMinutesDT_add {a b : Int} {v w u : PyDateTime}
    (h1 : addMinutesDT a v = some w) (h2 : addMinutesDT b w = some u) :
    addMinutesDT (a + b) v = some u := by
  obtain ⟨hb, hs, hu, ht⟩ := addMinutesDT_some h1
  unfold addMinutesDT at h2 ⊢
  rw [hb, hs, hu, ht] at h2
  rw [show pyBaseMinutes v + (a + b) = pyBaseMinutes v + a + b by ring]
  exact h2

theorem addMinutesDT_override (delta : Int) (v : PyDateTime) (us : Nat)
    (tz : Option Int) :
    addMinutesDT delta
      ⟨v.year, v.month, v.day, v.hour, v.minute, v.second, us, tz⟩ =
    (addMinutesDT delta v).map
      (fun u => ⟨u.year, u.month, u.day, u.hour, u.minute, u.second, us, tz⟩) := by
  have hbase : pyBaseMinutes
      ⟨v.year, v.month, v.day, v.hour, v.minute, v.second, us, tz⟩ =
      pyBaseMinutes v := rfl
  unfold addMinutesDT
  rw [hbase]
  split_ifs <;> rfl

theorem hourMin_base (v : PyDateTime) (hv : validDT v) :
    0 ≤ pyBaseMinutes v ∧
    (pyBaseMinutes v).toNat / 1440 = daysFromCivil v.year v.month v.day ∧
    (pyBaseMinutes v).toNat % 1440 = v.hour * 60 + v.minute := by
  obtain ⟨_, _, _, _, _, _, hh, hm, _, _, _, _⟩ := hv
  unfold pyBaseMinutes
  omega

/-- Adding zero minutes to a valid datetime is the identity. -/
theorem addMinutesDT_zero (v : PyDateTime) (hv : validDT v) :
    addMinutesDT 0 v = some v := by
  obtain ⟨hb0, hbz, hbr⟩ := hourMin_base v hv
  obtain ⟨h1, h2, h3, h4, h5, h6, h7, h8, _, _, _, _⟩ := hv
  unfold addMinutesDT
  rw [show pyBaseMinutes v + 0 = pyBaseMinutes v by ring]
  rw [if_neg (by omega)]
  rw [hbz, hbr]
  rw [civilFromDays_daysFromCivil v.year v.month v.day h1 h3 h4 h5 h6]
  dsimp only
  rw [if_neg (by omega)]
  have hh : (v.hour * 60 + v.minute) / 60 = v.hour := by omega
  have hm : (v.hour * 60 + v.minute) % 60 = v.minute := by omega
  rw [hh, hm]

/-- Parsing `isoformat` output recovers the value exactly. -/
theorem parse_isoformatL (v : PyDateTime) (hv : validDT v) :
    fromisoformatL (isoformatL v) = some v := by
  obtain ⟨h1, h2, h3, h4, h5, h6, h7, h8, h9, h10, h11, h12⟩ := hv
  have hrest : parseFracTz
      ((if v.microsecond = 0 then [] else '.' :: pad6 v.microsecond) ++
        (match v.tz with | none => [] | some off => fmtTzL off)) =
      some (v.microsecond, v.tz) := by
    by_cases hus : v.microsecond = 0
    · rw [if_pos hus, List.nil_append]
      cases htz : v.tz with
      | none => rw [hus]; rfl
      | some off =>
        rw [htz] at h11 h12
        simp only [Option.getD] at h11 h12
        rw [hus]
        exact parseFracTz_fmtTzL off h11 h12
    · rw [if_neg hus, List.cons_append]
      cases htz : v.tz with
      | none =>
        exact parseFracTz_frac v.microsecond [] none h10 rfl rfl
      | some off =>
        rw [htz] at h11 h12
        simp only [Option.getD] at h11 h12
        exact parseFracTz_frac v.microsecond (fmtTzL off) (some off) h10
          (headNotDigit_fmtTzL off) (parseTz_fmtTzL off h11 h12)
  unfold isoformatL
  exact fromiso_fmt v _ v.microsecond v.tz h1 h2 h3 h4 h5 h6 h7 h8 h9 hrest

/-- Parsing a `Z`-rendered timestamp (after the `Z → +00:00` replacement)
recovers the value, given its microseconds are zero and it sits at UTC. -/
theorem parse_fmtZL (v : PyDateTime) (hv : validDT v) (hus : v.microsecond = 0)
    (htz : v.tz = some 0) : fromisoformatL (replaceZL (fmtZL v)) = some v := by
  obtain ⟨h1, h2, h3, h4, h5, h6, h7, h8, h9, _, _, _⟩ := hv
  rw [replaceZL_fmtZL]
  have hrest : parseFracTz ['+', '0', '0', ':', '0', '0'] = some (0, some 0) := by
    rfl
  rw [fromiso_fmt v _ 0 (some 0) h1 h2 h3 h4 h5 h6 h7 h8 h9 hrest]
  rw [← hus, ← htz]

theorem shift_event_strings_zero (startS endS : String) (sv ev : PyDateTime)
    (hsv : validDT sv) (hev : validDT ev)
    (hcase : (startS.data = fmtZL sv ∧ endS.data = fmtZL ev ∧
        sv.microsecond = 0 ∧ ev.microsecond = 0 ∧ sv.tz = some 0 ∧ ev.tz = some 0) ∨
      (startS.data = isoformatL sv ∧ endS.data = isoformatL ev)) :
    shift_event_strings 0 startS endS = some (startS, endS) := by
  unfold shift_event_strings
  rcases hcase with ⟨hs, he, hu1, hu2, ht1, ht2⟩ | ⟨hs, he⟩
  · rw [hs, he, parse_fmtZL sv hsv hu1 ht1, parse_fmtZL ev hev hu2 ht2]
    simp only [Option.bind_eq_bind, Option.some_bind]
    rw [addMinutesDT_zero sv hsv, addMinutesDT_zero ev hev]
    simp only [Option.some_bind, endsWithZL_fmtZL, if_true]
    rw [← hs, ← he]
  · rw [hs, he, replaceZL_isoformatL, replaceZL_isoformatL,
      parse_isoformatL sv hsv, parse_isoformatL ev hev]
    simp only [Option.bind_eq_bind, Option.some_bind]
    rw [addMinutesDT_zero sv hsv, addMinutesDT_zero ev hev]
    simp only [Option.some_bind, endsWithZL_isoformatL]
    rw [if_neg (by simp), ← hs, ← he]

theorem shift_event_strings_add {a b : Int} {s e s₁ e₁ s₂ e₂ : String}
    (h1 : shift_event_strings a s e = some (s₁, e₁))
    (h2 : shift_event_strings b s₁ e₁ = some (s₂, e₂)) :
    shift_event_strings (a + b) s e = some (s₂, e₂) := by
  unfold shift_event_strings at h1
  simp only [Option.bind_eq_bind, Option.bind_eq_some] at h1
  obtain ⟨sdt, hsdt, edt, hedt, ns, hns, ne, hne, hfin⟩ := h1
  have hsv := fromisoformatL_valid hsdt
  have hev := fromisoformatL_valid hedt
  have hnsv := addMinutesDT_valid hsv hns
  have hnev := addMinutesDT_valid hev hne
  unfold shift_event_strings at h2 ⊢
  simp only [Option.bind_eq_bind] at h2 ⊢
  rw [hsdt, hedt]
  simp only [Option.some_bind]
  by_cases hz : endsWithZL s.data
  · rw [if_pos hz] at hfin
    simp only [Option.some.injEq, Prod.mk.injEq] at hfin
    have hs₁d : s₁.data = fmtZL ns := by rw [← hfin.1]
    have he₁d : e₁.data = fmtZL ne := by rw [← hfin.2]
    obtain ⟨v1, v2, v3, v4, v5, v6, v7, v8, v9, _, _, _⟩ := hnsv
    obtain ⟨w1, w2, w3, w4, w5, w6, w7, w8, w9, _, _, _⟩ := hnev
    have hps : fromisoformatL (replaceZL (fmtZL ns)) =
        some ⟨ns.year, ns.month, ns.day, ns.hour, ns.minute, ns.second, 0, some 0⟩ := by
      rw [replaceZL_fmtZL]
      exact fromiso_fmt ns _ 0 (some 0) v1 v2 v3 v4 v5 v6 v7 v8 v9 rfl
    have hpe : fromisoformatL (replaceZL (fmtZL ne)) =
        some ⟨ne.year, ne.month, ne.day, ne.hour, ne.minute, ne.second, 0, some 0⟩ := by
      rw [replaceZL_fmtZL]
      exact fromiso_fmt ne _ 0 (some 0) w1 w2 w3 w4 w5 w6 w7 w8 w9 rfl
    rw [hs₁d, he₁d, hps, hpe] at h2
    simp only [Option.some_bind] at h2
    rw [addMinutesDT_override b ns 0 (some 0), addMinutesDT_override b ne 0 (some 0)]
      at h2
    cases hns2 : addMinutesDT b ns with
    | none => rw [hns2] at h2; simp at h2
    | some u =>
      cases hne2 : addMinutesDT b ne with
      | none => rw [hns2, hne2] at h2; simp at h2
      | some u' =>
        rw [hns2, hne2] at h2
        simp only [Option.map_some', Option.some_bind, endsWithZL_fmtZL,
          if_true] at h2
        rw [addMinutesDT_add hns hns2, addMinutesDT_add hne hne2]
        simp only [Option.some_bind]
        rw [if_pos hz]
        exact h2
  · rw [if_neg hz] at hfin
    simp only [Option.some.injEq, Prod.mk.injEq] at hfin
    have hs₁d : s₁.data = isoformatL ns := by rw [← hfin.1]
    have he₁d : e₁.data = isoformatL ne := by rw [← hfin.2]
    rw [hs₁d, he₁d, replaceZL_isoformatL, replaceZL_isoformatL,
      parse_isoformatL ns hnsv, parse_isoformatL ne hnev] at h2
    simp only [Option.some_bind] at h2
    cases hns2 : addMinutesDT b ns with
    | none => rw [hns2] at h2; simp at h2
    | some u =>
      cases hne2 : addMinutesDT b ne with
      | none => rw [hns2, hne2] at h2; simp at h2
      | some u' =>
        rw [hns2, hne2] at h2
        simp only [Option.some_bind, endsWithZL_isoformatL, if_false] at h2
        rw [addMinutesDT_add hns hns2, addMinutesDT_add hne hne2]
        simp only [Option.some_bind]
        rw [if_neg hz]
        exact h2

/-- C1: if the resolved offset is ≤ 0 the orchestrator exits cleanly
(`exit(0)` at lines 403-405) having issued zero `updateEvent` calls; and in
automatic mode `actual_wake ≤ expected_wake` forces a resolved offset ≤ 0
(truncation toward zero of a nonpositive quantity). -/
theorem C1_nonpositive_offset_clean_exit
    (argsOffset : Option Int) (dry : Bool) (actualWake : Option PyDateTime)
    (events : List CalEvent) (myEmail : String) (oracle : String → Bool)
    (off : Int) (hoff : mainOffset argsOffset actualWake events = some off)
    (hle : off ≤ 0) (aw ew : PyDateTime)
    (hwake : naiveTotalMicros (stripTz aw) ≤ naiveTotalMicros (stripTz ew)) :
    mainRun argsOffset dry actualWake events myEmail oracle = .noAction ∧
    (mainRun argsOffset dry actualWake events myEmail oracle).updateCalls = [] ∧
    computeOffsetMinutes aw ew ≤ 0 := by
  have hmain : mainRun argsOffset dry actualWake events myEmail oracle = .noAction := by
    unfold mainRun
    rw [hoff]
    dsimp only
    rw [if_pos hle]
  refine ⟨hmain, by rw [hmain]; rfl, ?_⟩
  unfold computeOffsetMinutes
  have hd : naiveTotalMicros (stripTz aw) - naiveTotalMicros (stripTz ew) =
      -(naiveTotalMicros (stripTz ew) - naiveTotalMicros (stripTz aw)) := by ring
  rw [hd, Int.neg_tdiv]
  have hnn : 0 ≤ (naiveTotalMicros (stripTz ew) - naiveTotalMicros (stripTz aw)).tdiv
      60000000 :=
    Int.tdiv_nonneg (by omega) (by norm_num)
  omega

/-- C1 witness. -/
theorem C1_witness :
    mainRun (some (-5)) false none [] "" alwaysOk = .noAction ∧
    (mainRun (some (-5)) false none [] "" alwaysOk).updateCalls = [] ∧
    computeOffsetMinutes ⟨2024, 1, 15, 8, 0, 0, 0, none⟩
      ⟨2024, 1, 15, 8, 30, 0, 0, none⟩ ≤ 0 :=
  C1_nonpositive_offset_clean_exit (some (-5)) false none [] "" alwaysOk (-5)
    (by rfl) (by decide) ⟨2024, 1, 15, 8, 0, 0, 0, none⟩
    ⟨2024, 1, 15, 8, 30, 0, 0, none⟩ (by decide)

/-- C2 counterexample: an event whose attendee set after excluding the
user is non-empty, yet whose title matches the sleep lexicon, is
classified `SLEEP_MARKER`, not `HAS_ATTENDEES` — the title check runs
first (lines 413-416). -/
theorem C2_counterexample :
    other_attendees cexC2Event "me@example.com" ≠ [] ∧
    classify "me@example.com" cexC2Event ≠ Classification.HAS_ATTENDEES ∧
    classify "me@example.com" cexC2Event = Classification.SLEEP_MARKER := by
  decide

/-- C2 (amended): an event with a non-empty excluded-self attendee set is
classified `HAS_ATTENDEES` provided its title does not match the sleep
lexicon and it is not all-day; and every event receives exactly one of the
four classifications (`classify` is a total function into the four-element
type, independent of the offset, which it does not take as input). -/
theorem C2_attendees_classification (myEmail : String) (e : CalEvent)
    (hatt : other_attendees e myEmail ≠ [])
    (hsleep : sleepTitle (e.summary.getD "Untitled") = false)
    (hallday : e.start.date = none) :
    classify myEmail e = Classification.HAS_ATTENDEES ∧
    (classify myEmail e = Classification.SLEEP_MARKER ∨
     classify myEmail e = Classification.ALL_DAY ∨
     classify myEmail e = Classification.HAS_ATTENDEES ∨
     classify myEmail e = Classification.SHIFTABLE) := by
  have hne : e.attendees ≠ [] := by
    intro hnil
    apply hatt
    unfold other_attendees
    rw [hnil]
    rfl
  have hemp : e.attendees.isEmpty = false := by
    cases h : e.attendees with
    | nil => exact absurd h hne
    | cons a as => rfl
  have hsolo : is_solo_event e myEmail = false := by
    unfold is_solo_event
    rw [hemp]
    simp only [Bool.false_eq_true, if_false]
    rw [beq_eq_false_iff_ne]
    intro hlen
    exact hatt (List.length_eq_zero.mp hlen)
  have hcl : classify myEmail e = Classification.HAS_ATTENDEES := by
    unfold classify
    rw [hsleep, hallday]
    simp only [Bool.false_eq_true, if_false, Option.isSome_none, hsolo,
      Bool.not_false, if_true]
  exact ⟨hcl, Or.inr (Or.inr (Or.inl hcl))⟩

/-- C2 witness. -/
theorem C2_witness :
    classify "me@example.com" cexC2WitnessEvent = Classification.HAS_ATTENDEES ∧
    (classify "me@example.com" cexC2WitnessEvent = Classification.SLEEP_MARKER ∨
     classify "me@example.com" cexC2WitnessEvent = Classification.ALL_DAY ∨
     classify "me@example.com" cexC2WitnessEvent = Classification.HAS_ATTENDEES ∨
     classify "me@example.com" cexC2WitnessEvent = Classification.SHIFTABLE) :=
  C2_attendees_classification "me@example.com" cexC2WitnessEvent
    (by decide) (by decide) (by decide)

/-- C5: the offset computed by `main` (lines 392-396) equals the spec's
description — difference of the tz-stripped timestamps in whole minutes,
truncated toward zero. -/
theorem C5_offset_is_truncated_difference (a e : PyDateTime) :
    computeOffsetMinutes a e = specOffsetMinutes a e := by
  unfold computeOffsetMinutes specOffsetMinutes
  by_cases h : 0 ≤ naiveTotalMicros (stripTz a) - naiveTotalMicros (stripTz e)
  · rw [if_pos h]
    exact Int.tdiv_eq_ediv h (by norm_num)
  · rw [if_neg h]
    have hd : naiveTotalMicros (stripTz a) - naiveTotalMicros (stripTz e) =
        -(naiveTotalMicros (stripTz e) - naiveTotalMicros (stripTz a)) := by ring
    rw [hd, Int.neg_tdiv]
    rw [Int.tdiv_eq_ediv (by omega) (by norm_num)]

/-- C6 counterexample: with `--offset 0` supplied, `if args.offset:` is
falsy (line 373), so the automatic path runs anyway — here it fails
(no wake data) and the run exits nonzero instead of using the supplied 0
(which would exit 0 as "no action needed"). -/
theorem C6_counterexample :
    mainRun (some 0) false none [] "" alwaysOk = .fatal ∧
    RunResult.fatal ≠ RunResult.noAction := by
  constructor
  · rfl
  · decide

/-- C6 (amended): a *nonzero* manual `--offset` bypasses automatic wake
detection entirely — the run is independent of the wake-detection inputs —
and the supplied value is the resolved offset. -/
theorem C6_manual_offset_bypasses_detection (v : Int) (hv : v ≠ 0) (dry : Bool)
    (aw1 aw2 : Option PyDateTime) (events : List CalEvent) (myEmail : String)
    (oracle : String → Bool) :
    mainOffset (some v) aw1 events = some v ∧
    mainRun (some v) dry aw1 events myEmail oracle =
      mainRun (some v) dry aw2 events myEmail oracle := by
  have hoff : ∀ aw, mainOffset (some v) aw events = some v := by
    intro aw
    unfold mainOffset truthyOffset
    rw [if_pos (by simpa using hv)]
  refine ⟨hoff aw1, ?_⟩
  unfold mainRun
  rw [hoff aw1, hoff aw2]

/-- C6 witness. -/
theorem C6_witness :
    mainOffset (some 120) none [] = some 120 ∧
    mainRun (some 120) true none [] "" alwaysOk =
      mainRun (some 120) true (some ⟨2024, 1, 15, 9, 0, 0, 0, none⟩) [] "" alwaysOk :=
  C6_manual_offset_bypasses_detection 120 (by decide) true none
    (some ⟨2024, 1, 15, 9, 0, 0, 0, none⟩) [] "" alwaysOk

/-- C10: the webhook handler never consults the `X-Oura-Signature` header
(the `verify_signature` call is commented out), so any two requests with
the same body behave identically, and a sleep/create body always triggers
the calendar-shift run. -/
theorem C10_signature_not_checked (runExit : Nat) (body : WebhookBody)
    (sig1 sig2 : Option String) (hdt : body.data_type = some "sleep")
    (het : body.event_type = some "create") :
    oura_webhook runExit body sig1 = oura_webhook runExit body sig2 ∧
    (oura_webhook runExit body sig1).triggered = true := by
  refine ⟨rfl, ?_⟩
  unfold oura_webhook
  rw [hdt, het]
  rfl

/-- C10 witness. -/
theorem C10_witness :
    oura_webhook 0 ⟨some "create", some "sleep"⟩ (some "deadbeef") =
      oura_webhook 0 ⟨some "create", some "sleep"⟩ none ∧
    (oura_webhook 0 ⟨some "create", some "sleep"⟩ (some "deadbeef")).triggered = true :=
  C10_signature_not_checked 0 ⟨some "create", some "sleep"⟩ (some "deadbeef") none
    rfl rfl

/-- C3 counterexample: a `Z`-suffixed timestamp with fractional seconds is
parsed but re-serialized through `strftime('%Y-%m-%dT%H:%M:%S') + 'Z'`
(lines 339-341), which drops the fraction — a zero shift is not
byte-identical. -/
theorem C3_counterexample :
    shift_event_strings 0 "2024-01-15T07:00:00.500Z" "2024-01-15T08:00:00.500Z" =
      some ("2024-01-15T07:00:00Z", "2024-01-15T08:00:00Z") ∧
    ("2024-01-15T07:00:00Z" : String) ≠ "2024-01-15T07:00:00.500Z" := by
  constructor
  · rfl
  · decide

/-- C3 (amended): shifting by 0 reproduces the serialized start/end
byte-for-byte for timed events whose fields are in the canonical
serialization form — either both rendered as `YYYY-MM-DDTHH:MM:SSZ` from
whole-second UTC values, or both exactly `datetime.isoformat` output.
Strings outside that form (e.g. a fractional-second `Z` string) are
normalized, not reproduced. -/
theorem C3_zero_shift_roundtrip (startS endS : String) (sv ev : PyDateTime)
    (hsv : validDT sv) (hev : validDT ev)
    (hcase : (startS.data = fmtZL sv ∧ endS.data = fmtZL ev ∧
        sv.microsecond = 0 ∧ ev.microsecond = 0 ∧ sv.tz = some 0 ∧ ev.tz = some 0) ∨
      (startS.data = isoformatL sv ∧ endS.data = isoformatL ev)) :
    shift_event_strings 0 startS endS = some (startS, endS) :=
  shift_event_strings_zero startS endS sv ev hsv hev hcase

/-- C3 witness. -/
theorem C3_witness :
    shift_event_strings 0 "2024-01-15T07:00:00Z" "2024-01-15T08:00:00Z" =
      some ("2024-01-15T07:00:00Z", "2024-01-15T08:00:00Z") :=
  C3_zero_shift_roundtrip "2024-01-15T07:00:00Z" "2024-01-15T08:00:00Z"
    ⟨2024, 1, 15, 7, 0, 0, 0, some 0⟩ ⟨2024, 1, 15, 8, 0, 0, 0, some 0⟩
    (by unfold validDT; decide) (by unfold validDT; decide)
    (Or.inl ⟨by decide, by decide, rfl, rfl, rfl, rfl⟩)

/-- C4: shifting a timed event by `a` and then the result by `b` equals
shifting the original once by `a + b`, whenever both steps succeed
(CPython raises `OverflowError` outside years 1..9999, in which case there
is no result to compare). -/
theorem C4_shift_additive (a b : Int) (s e s₁ e₁ s₂ e₂ : String)
    (h1 : shift_event_strings a s e = some (s₁, e₁))
    (h2 : shift_event_strings b s₁ e₁ = some (s₂, e₂)) :
    shift_event_strings (a + b) s e = some (s₂, e₂) :=
  shift_event_strings_add h1 h2

/-- C4 witness. -/
theorem C4_witness :
    shift_event_strings (75 + 45) "2024-01-15T07:00:00Z" "2024-01-15T07:30:00Z" =
      some ("2024-01-15T09:00:00Z", "2024-01-15T09:30:00Z") :=
  C4_shift_additive 75 45 "2024-01-15T07:00:00Z" "2024-01-15T07:30:00Z"
    "2024-01-15T08:15:00Z" "2024-01-15T08:45:00Z"
    "2024-01-15T09:00:00Z" "2024-01-15T09:30:00Z" (by rfl) (by rfl)

theorem step_coupling (oracle : String → Bool) (off : Int) (m : String)
    (e : CalEvent) (stL stL' stD : LoopState)
    (h : stepEvent false oracle off m stL e = .ok stL') :
    ∃ stD' deltaL deltaD,
      stepEvent true oracle off m stD e = .ok stD' ∧
      stD'.updates = stD.updates ∧
      stL'.outcomes = stL.outcomes ++ deltaL ∧
      stD'.outcomes = stD.outcomes ++ deltaD ∧
      deltaD.map Outcome.classOf = deltaL.map Outcome.classOf := by
  unfold stepEvent at h ⊢
  by_cases h1 : sleepTitle (e.summary.getD "Untitled") = true
  · rw [if_pos h1] at h ⊢
    simp only [Except.ok.injEq] at h
    exact ⟨_, [.skippedSleep], [.skippedSleep], rfl, rfl, by rw [← h], rfl, rfl⟩
  · rw [if_neg h1] at h ⊢
    by_cases h2 : (e.start.date).isSome = true
    · rw [if_pos h2] at h ⊢
      simp only [Except.ok.injEq] at h
      exact ⟨_, [.skippedAllDay], [.skippedAllDay], rfl, rfl, by rw [← h], rfl, rfl⟩
    · rw [if_neg h2] at h ⊢
      by_cases h3 : (!(is_solo_event e m)) = true
      · rw [if_pos h3] at h ⊢
        simp only [Except.ok.injEq] at h
        exact ⟨_, [.skippedAttendees], [.skippedAttendees], rfl, rfl,
          by rw [← h], rfl, rfl⟩
      · rw [if_neg h3] at h ⊢
        by_cases h4 : (e.start.dateTime.getD "").data = []
        · rw [if_pos h4] at h ⊢
          simp only [Except.ok.injEq] at h
          exact ⟨stD, [], [], rfl, rfl, by rw [← h, List.append_nil], by
            rw [List.append_nil], rfl⟩
        · rw [if_neg h4] at h ⊢
          cases hp : fromisoformatL (replaceZL (e.start.dateTime.getD "").data) with
          | none => rw [hp] at h; exact absurd h (by simp)
          | some sdt =>
            rw [hp] at h
            dsimp only at h ⊢
            cases ha : addMinutesDT off sdt with
            | none => rw [ha] at h; exact absurd h (by simp)
            | some w =>
              rw [ha] at h
              dsimp only at h ⊢
              rw [if_neg (by simp)] at h
              rw [if_pos rfl]
              cases he : e.end_.dateTime with
              | none => rw [he] at h; exact absurd h (by simp)
              | some es =>
                rw [he] at h
                dsimp only at h
                cases hpe : fromisoformatL (replaceZL es.data) with
                | none => rw [hpe] at h; exact absurd h (by simp)
                | some edt =>
                  rw [hpe] at h
                  dsimp only at h
                  cases hae : addMinutesDT off edt with
                  | none => rw [hae] at h; exact absurd h (by simp)
                  | some w2 =>
                    rw [hae] at h
                    dsimp only at h
                    by_cases ho : oracle e.id = true
                    · rw [if_pos ho] at h
                      simp only [Except.ok.injEq] at h
                      exact ⟨_, [.didShift], [.wouldShift], rfl, rfl,
                        by rw [← h], rfl, rfl⟩
                    · rw [if_neg ho] at h
                      exact absurd h (by simp)

theorem runLoop_coupling (oracle : String → Bool) (off : Int) (m : String) :
    ∀ (events : List CalEvent) (stL stD stL' : LoopState),
    runLoop false oracle off m stL events = .ok stL' →
    ∃ stD' deltaL deltaD,
      runLoop true oracle off m stD events = .ok stD' ∧
      stD'.updates = stD.updates ∧
      stL'.outcomes = stL.outcomes ++ deltaL ∧
      stD'.outcomes = stD.outcomes ++ deltaD ∧
      deltaD.map Outcome.classOf = deltaL.map Outcome.classOf := by
  intro events
  induction events with
  | nil =>
    intro stL stD stL' h
    simp only [runLoop, Except.ok.injEq] at h
    exact ⟨stD, [], [], rfl, rfl, by rw [← h, List.append_nil],
      by rw [List.append_nil], rfl⟩
  | cons e es ih =>
    intro stL stD stL' h
    unfold runLoop at h
    cases hs : stepEvent false oracle off m stL e with
    | error st1 => rw [hs] at h; exact absurd h (by simp)
    | ok st1 =>
      rw [hs] at h
      obtain ⟨stD1, dL1, dD1, hstep, hupd1, houtL1, houtD1, hclass1⟩ :=
        step_coupling oracle off m e stL st1 stD hs
      obtain ⟨stD', dL2, dD2, hloop, hupd2, houtL2, houtD2, hclass2⟩ :=
        ih st1 stD1 stL' h
      refine ⟨stD', dL1 ++ dL2, dD1 ++ dD2, ?_, ?_, ?_, ?_, ?_⟩
      · unfold runLoop
        rw [hstep]
        exact hloop
      · rw [hupd2, hupd1]
      · rw [houtL2, houtL1, List.append_assoc]
      · rw [houtD2, houtD1, List.append_assoc]
      · rw [List.map_append, List.map_append, hclass1, hclass2]

/-- C7: with `--dry-run` and a positive offset, whenever the live run on
the same fetched events completes, the dry run also completes, issues zero
`updateEvent` calls, and reports exactly the same per-event
classification/selection outcomes as the live run. -/
theorem C7_dry_run_is_pure_preview (argsOffset : Option Int)
    (actualWake : Option PyDateTime) (events : List CalEvent)
    (myEmail : String) (oracle : String → Bool) (st : LoopState)
    (h : mainRun argsOffset false actualWake events myEmail oracle =
      .finished st) :
    (mainRun argsOffset true actualWake events myEmail oracle).updateCalls
      = [] ∧
    (mainRun argsOffset true actualWake events myEmail oracle).classes =
      (mainRun argsOffset false actualWake events myEmail oracle).classes ∧
    (mainRun argsOffset true actualWake events myEmail oracle).isFinished
      = true := by
  unfold mainRun at h ⊢
  cases hmo : mainOffset argsOffset actualWake events with
  | none => rw [hmo] at h; exact absurd h (by simp)
  | some off =>
    rw [hmo] at h
    dsimp only at h ⊢
    by_cases hoff : off ≤ 0
    · rw [if_pos hoff] at h; exact absurd h (by simp)
    · rw [if_neg hoff] at h ⊢
      cases hl : runLoop false oracle off myEmail ⟨0, 0, [], []⟩ events with
      | error st1 => rw [hl] at h; exact absurd h (by simp)
      | ok st1 =>
        rw [hl] at h
        dsimp only at h ⊢
        simp only [RunResult.finished.injEq] at h
        obtain ⟨stD', dL, dD, hloop, hupd, houtL, houtD, hclass⟩ :=
          runLoop_coupling oracle off myEmail events ⟨0, 0, [], []⟩
            ⟨0, 0, [], []⟩ st1 hl
        rw [hloop]
        dsimp only [RunResult.updateCalls, RunResult.classes,
          RunResult.isFinished]
        refine ⟨hupd, ?_, rfl⟩
        rw [houtD, if_neg hoff]
        dsimp only
        rw [houtL]
        exact hclass

theorem C7_witness :
    (mainRun (some 60) true none [c7e] "me@x" alwaysOk).updateCalls = [] ∧
    (mainRun (some 60) true none [c7e] "me@x" alwaysOk).classes =
      (mainRun (some 60) false none [c7e] "me@x" alwaysOk).classes ∧
    (mainRun (some 60) true none [c7e] "me@x" alwaysOk).isFinished = true :=
  C7_dry_run_is_pure_preview (some 60) none [c7e] "me@x" alwaysOk
    ⟨1, 0, ["w7"], [Outcome.didShift]⟩ (by rfl)

/-- C8 counterexample: with two SHIFTABLE events and an `updateEvent`
failure on the first, the run crashes at the first event — the second
event is never processed and no per-event outcome is reported, rather
than the failure being logged and the batch continuing. -/
theorem C8_counterexample :
    mainRun (some 75) false none [c8e1, c8e2] "me@x" failOracle =
      .crashed { shifted := 0, skipped := 0, updates := ["id1"],
                 outcomes := [] } ∧
    (mainRun (some 75) false none [c8e1, c8e2] "me@x" failOracle).isFinished
      = false :=
  ⟨by rfl, by rfl⟩

/-- C8 (amended): `shift_event` has no try/except around
`update().execute()`, and `main`'s loop none either, so when the
persistence call for a SHIFTABLE event raises, the whole batch aborts:
the loop returns the error state at that event and the remaining events
are never examined. -/
theorem C8_update_failure_aborts_batch (oracle : String → Bool) (off : Int)
    (myEmail : String) (st : LoopState) (e : CalEvent)
    (rest : List CalEvent)
    (hclass : classify myEmail e = .SHIFTABLE)
    (hready : shiftReady off e = true)
    (hfail : oracle e.id = false) :
    runLoop false oracle off myEmail st (e :: rest) =
      .error { st with updates := st.updates ++ [e.id] } := by
  have hstep : stepEvent false oracle off myEmail st e =
      .error { st with updates := st.updates ++ [e.id] } := by
    unfold classify at hclass
    split_ifs at hclass with h1 h2 h3
    unfold stepEvent
    rw [if_neg h1, if_neg h2, if_neg h3]
    unfold shiftReady at hready
    by_cases h4 : (e.start.dateTime.getD "").data = []
    · rw [if_pos h4] at hready
      exact absurd hready (by simp)
    · rw [if_neg h4] at hready
      rw [if_neg h4]
      cases hp : fromisoformatL (replaceZL (e.start.dateTime.getD "").data) with
      | none => simp only [hp, Bool.false_eq_true] at hready
      | some sdt =>
        dsimp only
        cases ha : addMinutesDT off sdt with
        | none => simp only [hp, ha, Bool.false_eq_true] at hready
        | some w =>
          dsimp only
          rw [if_neg (by simp)]
          cases he : e.end_.dateTime with
          | none => simp only [hp, ha, he, Bool.false_eq_true] at hready
          | some es =>
            dsimp only
            cases hpe : fromisoformatL (replaceZL es.data) with
            | none => simp only [hp, ha, he, hpe, Bool.false_eq_true] at hready
            | some edt =>
              dsimp only
              cases hae : addMinutesDT off edt with
              | none =>
                simp only [hp, ha, he, hpe, hae, Option.isSome_none,
                  Bool.false_eq_true] at hready
              | some w2 =>
                dsimp only
                rw [if_neg (by simp [hfail])]
  unfold runLoop
  rw [hstep]

theorem C8_witness :
    runLoop false failOracle 75 "me@x" ⟨0, 0, [], []⟩ [c8e1, c8e2] =
      .error { shifted := 0, skipped := 0, updates := ["id1"],
               outcomes := [] } :=
  C8_update_failure_aborts_batch failOracle 75 "me@x" ⟨0, 0, [], []⟩ c8e1
    [c8e2] (by rfl) (by rfl) (by rfl)

theorem stepEvent_ok_counts (dry : Bool) (oracle : String → Bool)
    (off : Int) (m : String) (st st' : LoopState) (e : CalEvent)
    (hw : wellStart e = true)
    (h : stepEvent dry oracle off m st e = .ok st') :
    st'.shifted + st'.skipped = st.shifted + st.skipped + 1 ∧
    st'.outcomes.length = st.outcomes.length + 1 := by
  unfold stepEvent at h
  by_cases h1 : sleepTitle (e.summary.getD "Untitled") = true
  · rw [if_pos h1] at h
    simp only [Except.ok.injEq] at h
    subst h
    exact ⟨by dsimp only; omega, by simp⟩
  · rw [if_neg h1] at h
    by_cases h2 : (e.start.date).isSome = true
    · rw [if_pos h2] at h
      simp only [Except.ok.injEq] at h
      subst h
      exact ⟨by dsimp only; omega, by simp⟩
    · rw [if_neg h2] at h
      by_cases h3 : (!(is_solo_event e m)) = true
      · rw [if_pos h3] at h
        simp only [Except.ok.injEq] at h
        subst h
        exact ⟨by dsimp only; omega, by simp⟩
      · rw [if_neg h3] at h
        by_cases h4 : (e.start.dateTime.getD "").data = []
        · unfold wellStart at hw
          rw [Bool.or_eq_true] at hw
          rcases hw with hw | hw
          · exact absurd hw h2
          · exact absurd hw (by simp [h4])
        · rw [if_neg h4] at h
          cases hp : fromisoformatL (replaceZL (e.start.dateTime.getD "").data) with
          | none => rw [hp] at h; exact absurd h (by simp)
          | some sdt =>
            rw [hp] at h
            dsimp only at h
            cases ha : addMinutesDT off sdt with
            | none => rw [ha] at h; exact absurd h (by simp)
            | some w =>
              rw [ha] at h
              dsimp only at h
              by_cases hd : dry = true
              · rw [if_pos hd] at h
                simp only [Except.ok.injEq] at h
                subst h
                exact ⟨by dsimp only; omega, by simp⟩
              · rw [if_neg hd] at h
                cases he : e.end_.dateTime with
                | none => rw [he] at h; exact absurd h (by simp)
                | some es =>
                  rw [he] at h
                  dsimp only at h
                  cases hpe : fromisoformatL (replaceZL es.data) with
                  | none => rw [hpe] at h; exact absurd h (by simp)
                  | some edt =>
                    rw [hpe] at h
                    dsimp only at h
                    cases hae : addMinutesDT off edt with
                    | none => rw [hae] at h; exact absurd h (by simp)
                    | some w2 =>
                      rw [hae] at h
                      dsimp only at h
                      by_cases ho : oracle e.id = true
                      · rw [if_pos ho] at h
                        simp only [Except.ok.injEq] at h
                        subst h
                        exact ⟨by dsimp only; omega, by simp⟩
                      · rw [if_neg ho] at h
                        exact absurd h (by simp)

theorem runLoop_counts (dry : Bool) (oracle : String → Bool) (off : Int)
    (m : String) :
    ∀ (events : List CalEvent) (st st' : LoopState),
    (∀ e ∈ events, wellStart e = true) →
    runLoop dry oracle off m st events = .ok st' →
    st'.shifted + st'.skipped = st.shifted + st.skipped + events.length ∧
    st'.outcomes.length = st.outcomes.length + events.length := by
  intro events
  induction events with
  | nil =>
    intro st st' _ h
    simp only [runLoop, Except.ok.injEq] at h
    subst h
    simp
  | cons e es ih =>
    intro st st' hw h
    unfold runLoop at h
    cases hs : stepEvent dry oracle off m st e with
    | error st1 => rw [hs] at h; exact absurd h (by simp)
    | ok st1 =>
      rw [hs] at h
      obtain ⟨hc1, hc2⟩ := stepEvent_ok_counts dry oracle off m st st1 e
        (hw e (List.mem_cons_self _ _)) hs
      obtain ⟨hc3, hc4⟩ :=
        ih st1 st' (fun x hx => hw x (List.mem_cons_of_mem _ hx)) h
      constructor
      · simp only [List.length_cons]
        omega
      · simp only [List.length_cons]
        omega

/-- C9 counterexample: a fetched event whose start has neither a `date`
nor a `dateTime` is silently dropped — the run finishes with
`shifted + skipped = 0` for one fetched event and reports no per-event
outcome for it. -/
theorem C9_counterexample :
    mainRun (some 60) false none [c9bad] "me@x" alwaysOk =
      .finished { shifted := 0, skipped := 0, updates := [],
                  outcomes := [] } ∧
    ([c9bad] : List CalEvent).length = 1 :=
  ⟨by rfl, by rfl⟩

/-- C9 (amended): during processing with a positive offset, every fetched
event whose start carries a date or a non-empty dateTime is counted in
exactly one of the shifted/skipped counters and receives exactly one
per-event outcome; events with neither (line 428's falsy `start_time`)
are silently uncounted. -/
theorem C9_events_counted_once (argsOffset : Option Int) (dry : Bool)
    (actualWake : Option PyDateTime) (events : List CalEvent)
    (myEmail : String) (oracle : String → Bool) (st : LoopState)
    (hw : ∀ e ∈ events, wellStart e = true)
    (h : mainRun argsOffset dry actualWake events myEmail oracle =
      .finished st) :
    st.shifted + st.skipped = events.length ∧
    st.outcomes.length = events.length := by
  unfold mainRun at h
  cases hmo : mainOffset argsOffset actualWake events with
  | none => rw [hmo] at h; exact absurd h (by simp)
  | some off =>
    rw [hmo] at h
    dsimp only at h
    by_cases hoff : off ≤ 0
    · rw [if_pos hoff] at h; exact absurd h (by simp)
    · rw [if_neg hoff] at h
      cases hl : runLoop dry oracle off myEmail ⟨0, 0, [], []⟩ events with
      | error st1 => rw [hl] at h; exact absurd h (by simp)
      | ok st1 =>
        rw [hl] at h
        dsimp only at h
        simp only [RunResult.finished.injEq] at h
        subst h
        obtain ⟨hc1, hc2⟩ := runLoop_counts dry oracle off myEmail events
          ⟨0, 0, [], []⟩ st1 hw hl
        refine ⟨by dsimp only at hc1; omega, ?_⟩
        dsimp only at hc2
        simp only [List.length_nil] at hc2
        omega

theorem C9_witness :
    ({ shifted := 1, skipped := 1, updates := [],
       outcomes := [Outcome.skippedSleep, Outcome.wouldShift] } :
        LoopState).shifted +
      ({ shifted := 1, skipped := 1, updates := [],
         outcomes := [Outcome.skippedSleep, Outcome.wouldShift] } :
          LoopState).skipped = ([c9s, c9g] : List CalEvent).length ∧
    ({ shifted := 1, skipped := 1, updates := [],
       outcomes := [Outcome.skippedSleep, Outcome.wouldShift] } :
        LoopState).outcomes.length = ([c9s, c9g] : List CalEvent).length :=
  C9_events_counted_once (some 60) true none [c9s, c9g] "me@x" alwaysOk
    ⟨1, 1, [], [Outcome.skippedSleep, Outcome.wouldShift]⟩
    (by decide) (by rfl)
